import Mathlib

/-!
Verification of the BubiQuizPro core (data manager and quiz engine).

This file gives a shallow embedding, in Lean 4, of the progress-store and
quiz-engine logic of the repository (src/modules/data_manager.py and
src/modules/quiz_engine.py), and proves - or refutes - the frozen claims
about that logic.

Modelling conventions:
- Timestamps are rationals measured in seconds; a timedelta of d days is
  d * 86400 seconds.  Both the datetime clock and the time.time clock of
  the source are represented by explicit `now` arguments.
- Python lists and dicts are Lean lists and association lists; dict keys
  are unique, which theorems carry as Nodup hypotheses.
- SQLite tables are Lean lists of row structures.  An SQL UPDATE is a map
  over the rows; note that the expressions of an SQL SET clause are
  evaluated against the values of the row BEFORE the update, a fact that
  matters for the topic-progress update below.
- Machine floats of the source (success-rate scores, the 0.6 and 0.7
  thresholds, SQLite REAL division) are modelled as exact rationals; at
  the realistic sizes involved the float comparisons of the source agree
  with the rational ones.
- Exceptions are modelled with Option: a function that can raise returns
  none on the raising paths.
- Calls to the random module are modelled by threading an explicit stream
  of naturals (`List Nat`); each draw consumes the head of the stream.
  Theorems quantify over the stream, so they hold for every outcome of
  the randomness.
-/

/-- Python str.lower applied to a string modelled as a list of characters. -/
def pyLower (s : List Char) : List Char := s.map Char.toLower

/-- Python substring test `sub in big` on strings modelled as char lists. -/
def hasSubstr (sub : List Char) : List Char → Bool
  | [] => sub.isEmpty
  | c :: rest => sub.isPrefixOf (c :: rest) || hasSubstr sub rest

/-- Python str.isdigit restricted to ASCII digits. -/
def pyIsDigit (s : List Char) : Bool := !s.isEmpty && s.all Char.isDigit

/-- Python int() applied to a string of digits. -/
def digitsToInt (s : List Char) : Int :=
  s.foldl (fun acc c => acc * 10 + ((c.toNat : Int) - 48)) 0

/-- Python int() applied to a rational: truncation toward zero. -/
def pyInt (q : ℚ) : Int := if 0 ≤ q then ⌊q⌋ else ⌈q⌉

/-- Python list indexing `l[i]` including negative indices counted from the
end; none models an IndexError. -/
def pyIndexGet (l : List ℚ) (i : Int) : Option ℚ :=
  if 0 ≤ i then l.get? i.toNat
  else if 0 ≤ i + (l.length : Int) then l.get? (i + (l.length : Int)).toNat else none

/-! ## Data model (the four relational tables and the question catalog) -/

/-- A question of the in-memory catalog.  Fields carry the default that the
source supplies through dict.get when the key is absent, so an absent key
is represented by its default value. -/
structure Question where
  qtype : String := "multiple_choice"
  options : List (List Char) := []
  correct_answer : Int := 0
  model_answer : List Char := []
  keywords : List (List Char) := []
  explanation : List Char := []
  source_reference : List Char := []
  topics : List String := []
  deriving DecidableEq

/-- One row of the question_progress table. -/
structure ProgressRow where
  question_id : String
  correct_attempts : Int
  wrong_attempts : Int
  last_attempt : ℚ
  next_review : Option ℚ
  mastery_level : Int
  deriving DecidableEq

/-- One row of the topic_progress table. -/
structure TopicRow where
  topic_name : String
  total_questions : Int
  correct_answers : Int
  mastery_percentage : ℚ
  deriving DecidableEq

/-- One row of the learning_sessions table (the topics column, a
comma-joined string in the source, is kept as the list it joins). -/
structure SessionRow where
  date : ℚ
  duration_minutes : Int
  questions_answered : Nat
  correct_answers : Nat
  topics : List String
  deriving DecidableEq

/-- The DataManager state: the question cache plus the persisted tables
(the subjects_scripts table is not touched by any claim and is omitted). -/
structure DataManagerState where
  questions : List (String × Question)
  question_progress : List ProgressRow
  topic_progress : List TopicRow
  learning_sessions : List SessionRow
  deriving DecidableEq

/-- Lookup of DataManager.get_question in the catalog dict. -/
def lookupQuestion (qs : List (String × Question)) (qid : String) : Option Question :=
  (qs.find? (fun p => p.1 == qid)).map (fun p => p.2)

/-- SELECT of the question_progress row with the given primary key. -/
def lookupProgress (rows : List ProgressRow) (qid : String) : Option ProgressRow :=
  rows.find? (fun r => r.question_id == qid)

/-- SELECT of the topic_progress row with the given primary key. -/
def lookupTopic (rows : List TopicRow) (t : String) : Option TopicRow :=
  rows.find? (fun r => r.topic_name == t)

/-- SQL UPDATE of the question_progress row whose key matches. -/
def replaceProgress (rows : List ProgressRow) (qid : String) (r : ProgressRow) :
    List ProgressRow :=
  rows.map (fun r0 => if r0.question_id == qid then r else r0)

/-! ## data_manager.py operations -/

/-- Interval table of DataManager._calculate_next_review, in days. -/
def intervals : List ℚ := [1, 2, 4, 7, 14, 30]

/-- Embedding of DataManager._calculate_next_review.  The last argument is
the parsed last-review time: none models an unparseable string, for which
the source substitutes the current datetime.  The source indexes the
interval table with `intervals[min(mastery_level, 5)]`, a Python indexing
that counts from the end for negative values; none models the IndexError
raised when the index is out of range. -/
def calculateNextReview (now : ℚ) (mastery_level : Int) (last_review : Option ℚ) :
    Option ℚ :=
  (pyIndexGet intervals (min mastery_level 5)).map
    (fun itv => last_review.getD now + itv * 86400)

/-- SET clause of the topic_progress UPDATE in update_question_progress.
The SQL SET expressions read the row values from before the update, so the
mastery percentage is computed from the OLD correct_answers.  SQLite REAL
division is modelled by Rat division (a zero total, NULL in SQLite, is
never reached in the claims below). -/
def bumpTopicRow (t : TopicRow) : TopicRow :=
  { t with
    correct_answers := t.correct_answers + 1,
    mastery_percentage := (t.correct_answers : ℚ) * 100 / (t.total_questions : ℚ) }

/-- SQL UPDATE topic_progress ... WHERE topic_name = t. -/
def updateTopicTable (rows : List TopicRow) (t : String) : List TopicRow :=
  rows.map (fun r => if r.topic_name == t then bumpTopicRow r else r)

/-- Row-update step of DataManager.update_question_progress: updates or
inserts the question_progress row.  none models the IndexError that
_calculate_next_review would raise on a deeply negative mastery level. -/
def updateProgressRowStep (now : ℚ) (question_id : String) (is_correct : Bool)
    (dm : DataManagerState) : Option DataManagerState :=
  match lookupProgress dm.question_progress question_id with
  | some row =>
    let correct_attempts := row.correct_attempts + (if is_correct then 1 else 0)
    let wrong_attempts := row.wrong_attempts + (if is_correct then 0 else 1)
    let mastery_level :=
      if is_correct then min (row.mastery_level + 1) 5 else max (row.mastery_level - 1) 0
    let newRow : ℚ → ProgressRow := fun nr =>
      { question_id := question_id, correct_attempts := correct_attempts,
        wrong_attempts := wrong_attempts, last_attempt := now,
        next_review := some nr, mastery_level := mastery_level }
    (calculateNextReview now mastery_level (some now)).map (fun nr =>
      { dm with question_progress :=
          replaceProgress dm.question_progress question_id (newRow nr) })
  | none =>
    let correct_attempts : Int := if is_correct then 1 else 0
    let wrong_attempts : Int := if is_correct then 0 else 1
    let mastery_level : Int := if is_correct then 1 else 0
    let newRow : ℚ → ProgressRow := fun nr =>
      { question_id := question_id, correct_attempts := correct_attempts,
        wrong_attempts := wrong_attempts, last_attempt := now,
        next_review := some nr, mastery_level := mastery_level }
    (calculateNextReview now mastery_level (some now)).map (fun nr =>
      { dm with question_progress := dm.question_progress ++ [newRow nr] })

/-- Topic-update step of DataManager.update_question_progress: when the
answer is correct and the question is in the catalog, runs the
topic_progress UPDATE for every topic tag of the question. -/
def updateTopicsStep (question_id : String) (is_correct : Bool)
    (dm1 : DataManagerState) : DataManagerState :=
  match lookupQuestion dm1.questions question_id, is_correct with
  | some q, true =>
      { dm1 with topic_progress :=
          q.topics.foldl (fun rows t => updateTopicTable rows t) dm1.topic_progress }
  | _, _ => dm1

/-- Embedding of DataManager.update_question_progress: the row update
followed by the topic updates, committed together. -/
def updateQuestionProgress (now : ℚ) (question_id : String) (is_correct : Bool)
    (dm : DataManagerState) : Option DataManagerState :=
  (updateProgressRowStep now question_id is_correct dm).map
    (updateTopicsStep question_id is_correct)

/-- Embedding of DataManager.record_learning_session: appends one row. -/
def recordLearningSession (now : ℚ) (duration_minutes : Int)
    (questions_answered correct_answers : Nat) (topics : List String)
    (dm : DataManagerState) : DataManagerState :=
  { dm with learning_sessions := dm.learning_sessions ++
      [{ date := now, duration_minutes := duration_minutes,
         questions_answered := questions_answered,
         correct_answers := correct_answers, topics := topics }] }

/-- Topics of the reloaded catalog (the _topics_cache set rebuilt by
load_all_questions), as a duplicate-free list. -/
def topicsOfCatalog (qs : List (String × Question)) : List String :=
  ((qs.map (fun p => p.2.topics)).flatten).dedup

/-- Count of catalog questions carrying a given topic tag, as computed in
refresh_all_data. -/
def countTopicQuestions (qs : List (String × Question)) (t : String) : Int :=
  ((qs.filter (fun p => decide (t ∈ p.2.topics))).length : Int)

/-- SQLite INSERT OR REPLACE into topic_progress: replaces the row with the
same primary key, or appends a fresh row. -/
def upsertTopic (rows : List TopicRow) (r : TopicRow) : List TopicRow :=
  if (rows.find? (fun r0 => r0.topic_name == r.topic_name)).isSome then
    rows.map (fun r0 => if r0.topic_name == r.topic_name then r else r0)
  else rows ++ [r]

/-- Embedding of DataManager.refresh_all_data (its topic_progress part).
The first argument is the catalog as reloaded from the question files.
Rows of topics absent from the reloaded catalog are deleted; every current
topic is INSERT OR REPLACEd with the fresh count and with correct_answers
and mastery_percentage both set to the literal 0 of the source SQL. -/
def refreshAllData (newQuestions : List (String × Question)) (dm : DataManagerState) :
    DataManagerState :=
  let current := topicsOfCatalog newQuestions
  let kept := dm.topic_progress.filter (fun r => decide (r.topic_name ∈ current))
  let tp := current.foldl (fun rows t =>
    upsertTopic rows
      { topic_name := t, total_questions := countTopicQuestions newQuestions t,
        correct_answers := 0, mastery_percentage := 0 }) kept
  { dm with questions := newQuestions, topic_progress := tp }

/-! ## quiz_engine.py: answer grading and session lifecycle -/

/-- A submitted answer: an option index or free text (the two shapes the
source handles). -/
inductive PyAnswer where
  | intAns (n : Int)
  | strAns (s : List Char)
  deriving DecidableEq

/-- One entry of the session result log built by submit_answer. -/
structure ResultRec where
  question_id : String
  is_correct : Bool
  user_answer : PyAnswer
  correct_answer : Option (List Char)
  explanation : List Char
  source_reference : List Char
  time_taken : ℚ
  deriving DecidableEq

/-- The current_session dict of QuizEngine. -/
structure Session where
  mode : String
  topics : List String
  difficulty : Option String := none
  source : Option String := none
  subject : Option String := none
  script : Option String := none
  question_count : Nat
  time_limit : Option ℚ := none
  start_time : ℚ
  end_time : Option ℚ := none
  questions_answered : Nat
  correct_answers : Nat
  deriving DecidableEq

/-- The current_question dict of QuizEngine. -/
structure CurrentQuestion where
  id : String
  data : Question
  start_time : ℚ
  deriving DecidableEq

/-- The mutable state of a QuizEngine instance together with its
DataManager. -/
structure EngineState where
  dm : DataManagerState
  current_session : Option Session
  current_question : Option CurrentQuestion
  session_questions : List String
  session_results : List ResultRec
  deriving DecidableEq

/-- The end_session summary dict. -/
structure Summary where
  mode : String
  topics : List String
  duration_minutes : Int
  questions_total : Nat
  questions_answered : Nat
  correct_answers : Nat
  accuracy : ℚ
  results : List ResultRec
  deriving DecidableEq

/-- Answer evaluation of submit_answer (the part computing is_correct and
correct_answer).  `ratio` models the external difflib sequence-matcher
ratio used on keywordless text questions.  The result is none when the
source would raise (a text question graded against a non-string answer);
the 60 percent keyword threshold `len(keywords) * 0.6` and the 0.7
similarity threshold are exact rationals, which at realistic list lengths
coincide with the float comparison of the source. -/
def gradeAnswer (ratio : List Char → List Char → ℚ) (q : Question) (answer : PyAnswer) :
    Option (Bool × Option (List Char)) :=
  if q.qtype == "multiple_choice" then
    let a : PyAnswer := match answer with
      | .strAns s => if pyIsDigit s then .intAns (digitsToInt s) else .strAns s
      | x => x
    let is_correct := match a with
      | .intAns n => n == q.correct_answer
      | .strAns _ => false
    let correct_answer :=
      if 0 ≤ q.correct_answer ∧ q.correct_answer < (q.options.length : Int) then
        q.options.getD q.correct_answer.toNat []
      else "Unknown".data
    some (is_correct, some correct_answer)
  else if q.qtype == "text" then
    match answer with
    | .intAns _ => none
    | .strAns s =>
      if q.keywords ≠ [] then
        let found := q.keywords.filter (fun kw => hasSubstr (pyLower kw) (pyLower s))
        some (decide (((q.keywords.length : ℚ) * (3 / 5)) ≤ (found.length : ℚ)),
          some q.model_answer)
      else
        some (decide ((7 / 10 : ℚ) ≤ ratio (pyLower s) (pyLower q.model_answer)),
          some q.model_answer)
  else
    some (false, none)

/-- Embedding of QuizEngine.submit_answer.  The inner none is the
`error` dict returned when no session or no current question is active;
the outer none models an exception escaping the call. -/
def submitAnswer (ratio : List Char → List Char → ℚ) (now : ℚ) (answer : PyAnswer)
    (st : EngineState) : Option (Option ResultRec × EngineState) :=
  match st.current_session, st.current_question with
  | some sess, some cq =>
    let q := cq.data
    match gradeAnswer ratio q answer with
    | none => none
    | some (is_correct, correct_answer) =>
      let result : ResultRec :=
        { question_id := cq.id, is_correct := is_correct, user_answer := answer,
          correct_answer := correct_answer, explanation := q.explanation,
          source_reference := q.source_reference, time_taken := now - cq.start_time }
      let sess' := { sess with
                     questions_answered := sess.questions_answered + 1,
                     correct_answers := sess.correct_answers + (if is_correct then 1 else 0) }
      (updateQuestionProgress now cq.id is_correct st.dm).map (fun dm' =>
        (some result,
          { st with dm := dm', current_session := some sess',
                    session_results := st.session_results ++ [result] }))
  | _, _ => some (none, st)

/-- Embedding of QuizEngine.end_session: none and an unchanged state when
idle; otherwise records the Learning Session row, builds the summary and
resets the session state. -/
def endSession (now : ℚ) (st : EngineState) : Option Summary × EngineState :=
  match st.current_session with
  | none => (none, st)
  | some sess =>
    let duration : ℚ := (now - sess.start_time) / 60
    let dm' := recordLearningSession now (pyInt duration) sess.questions_answered
      sess.correct_answers sess.topics st.dm
    let accuracy : ℚ :=
      if 0 < sess.questions_answered then
        ((sess.correct_answers : ℚ) / (sess.questions_answered : ℚ)) * 100
      else 0
    let summary : Summary :=
      { mode := sess.mode, topics := sess.topics, duration_minutes := pyInt duration,
        questions_total := sess.question_count,
        questions_answered := sess.questions_answered,
        correct_answers := sess.correct_answers,
        accuracy := accuracy,
        results := st.session_results }
    (some summary,
      { st with dm := dm', current_session := none, current_question := none,
                session_questions := [], session_results := [] })

/-! ## quiz_engine.py: the four selection policies

Randomness is modelled by an explicit stream of naturals: a shuffle
repeatedly extracts the element at the head draw modulo the remaining
length, a choice reads one draw, a sample is a prefix of a shuffle. -/

/-- Stable insertion: the element goes in front of the first position that
is not strictly smaller, so elements equal under `le` keep their original
relative order.  This is the behaviour of the stable list.sort of the
source. -/
def insertLe {α : Type} (le : α → α → Bool) (x : α) : List α → List α
  | [] => [x]
  | y :: ys => if le x y then x :: y :: ys else y :: insertLe le x ys

/-- Stable sort by insertion, folding from the right so earlier elements
are inserted last and land in front of equal later ones. -/
def sortByLe {α : Type} (le : α → α → Bool) (l : List α) : List α :=
  l.foldr (insertLe le) []

/-- Extraction of the element at a given index, returning it and the list
without it. -/
def extractIdx {α : Type} (i : Nat) : List α → Option (α × List α)
  | [] => none
  | x :: xs =>
    if i = 0 then some (x, xs)
    else (extractIdx (i - 1) xs).map (fun p => (p.1, x :: p.2))

/-- Fuelled shuffle: each step extracts the element indexed by the next
draw modulo the remaining length. -/
def shuffleAux {α : Type} : Nat → List Nat → List α → List α
  | 0, _, _ => []
  | fuel + 1, rs, l =>
    match extractIdx (rs.headD 0 % l.length) l with
    | some (x, rest) => x :: shuffleAux fuel rs.tail rest
    | none => []

/-- Model of random.shuffle. -/
def pyShuffle {α : Type} (rs : List Nat) (l : List α) : List α :=
  shuffleAux l.length rs l

/-- Model of random.sample: k distinct elements, as a prefix of a
shuffle.  Callers of the source only request k at most the length. -/
def pySample {α : Type} (rs : List Nat) (k : Nat) (l : List α) : List α :=
  (pyShuffle rs l).take k

/-- Score computed by _select_weak_spot_questions for one candidate. -/
def questionScore (progress : List ProgressRow) (qid : String) : ℚ :=
  match lookupProgress progress qid with
  | none => 50
  | some p =>
    if p.correct_attempts + p.wrong_attempts = 0 then 50
    else (p.correct_attempts : ℚ) / ((p.correct_attempts : ℚ) + (p.wrong_attempts : ℚ)) * 100

/-- Embedding of QuizEngine._select_normal_questions, taking the filtered
pool (the result of get_filtered_questions) as an association list. -/
def selectNormalQuestions (rs : List Nat) (filtered : List (String × Question))
    (count : Nat) : List String :=
  let question_ids := pyShuffle rs (filtered.map (fun p => p.1))
  question_ids.take (min count question_ids.length)

/-- Embedding of QuizEngine._select_weak_spot_questions. -/
def selectWeakSpotQuestions (progress : List ProgressRow)
    (filtered : List (String × Question)) (count : Nat) : List String :=
  let question_scores := filtered.map (fun p => (p.1, questionScore progress p.1))
  let sorted := sortByLe (fun a b => decide (a.2 ≤ b.2)) question_scores
  (sorted.take (min count sorted.length)).map (fun p => p.1)

/-- Due condition of the get_questions_for_review query:
next_review at or before now, or NULL. -/
def dueRow (now : ℚ) (r : ProgressRow) : Bool :=
  match r.next_review with
  | none => true
  | some t => decide (t ≤ now)

/-- ORDER BY mastery_level ASC, last_attempt ASC. -/
def reviewLe (a b : ProgressRow) : Bool :=
  decide (a.mastery_level < b.mastery_level ∨
    (a.mastery_level = b.mastery_level ∧ a.last_attempt ≤ b.last_attempt))

/-- Embedding of DataManager.get_questions_for_review: the due rows sorted
and limited, backfilled with never-attempted catalog questions up to the
limit. -/
def getQuestionsForReview (now : ℚ) (dm : DataManagerState) (limit : Nat) : List String :=
  let due := (sortByLe reviewLe (dm.question_progress.filter (dueRow now))).take limit
  let question_ids := due.map (fun r => r.question_id)
  if question_ids.length < limit then
    let seen := question_ids ++ dm.question_progress.map (fun r => r.question_id)
    let unseen := (dm.questions.map (fun p => p.1)).filter (fun q => decide (q ∉ seen))
    question_ids ++ unseen.take (limit - question_ids.length)
  else question_ids

/-- Embedding of QuizEngine._select_spaced_repetition_questions. -/
def selectSpacedRepetitionQuestions (rs1 rs2 : List Nat) (now : ℚ)
    (dm : DataManagerState) (filtered : List (String × Question)) (count : Nat) :
    List String :=
  let due_questions := getQuestionsForReview now dm (count * 2)
  let fkeys := filtered.map (fun p => p.1)
  let eligible := due_questions.filter (fun q => decide (q ∈ fkeys))
  let eligible :=
    if eligible.length < count then
      let remaining := fkeys.filter (fun q => decide (q ∉ eligible))
      eligible ++ pySample rs1 (min (count - eligible.length) remaining.length) remaining
    else eligible
  let shuffled := pyShuffle rs2 eligible
  shuffled.take (min count shuffled.length)

/-- Lookup in the topic_groups dict of _select_exam_questions. -/
def groupGet (gs : List (String × List String)) (t : String) : Option (List String) :=
  (gs.find? (fun p => p.1 == t)).map (fun p => p.2)

/-- Replacement of one group in the topic_groups dict. -/
def groupSet (gs : List (String × List String)) (t : String) (v : List String) :
    List (String × List String) :=
  gs.map (fun p => if p.1 == t then (t, v) else p)

/-- topic_groups[topic].append(q_id), creating the group on first sight. -/
def addToGroup (gs : List (String × List String)) (t : String) (qid : String) :
    List (String × List String) :=
  match groupGet gs t with
  | some g => groupSet gs t (g ++ [qid])
  | none => gs ++ [(t, [qid])]

/-- Grouping of the filtered pool by topic; a question with n topics
appears in n groups. -/
def buildTopicGroups (filtered : List (String × Question)) :
    List (String × List String) :=
  filtered.foldl (fun gs p => p.2.topics.foldl (fun gs t => addToGroup gs t p.1) gs) []

/-- Total number of identifiers left across all groups. -/
def groupsTotalSize (gs : List (String × List String)) : Nat :=
  (gs.map (fun p => p.2.length)).sum

/-- Python `not any(topic_groups.values())`. -/
def allGroupsEmpty (gs : List (String × List String)) : Bool :=
  gs.all (fun p => p.2.isEmpty)

/-- State threaded through the exam-mode selection loop. -/
structure ExamPass where
  sel : List String
  tl : List String
  gs : List (String × List String)
  rs : List Nat
  broke : Bool
  deriving DecidableEq

/-- One pass of the inner for-loop of _select_exam_questions over a
snapshot of topics_list: an empty group removes its topic from
topics_list, a non-empty group gives up a random member which is selected
if new, and reaching count breaks out. -/
def examFor (count : Nat) : List String → ExamPass → ExamPass
  | [], st => st
  | t :: ts, st =>
    match groupGet st.gs t with
    | none => examFor count ts { st with tl := st.tl.erase t }
    | some [] => examFor count ts { st with tl := st.tl.erase t }
    | some (q0 :: g0) =>
      let g := q0 :: g0
      let q := g.getD (st.rs.headD 0 % g.length) ""
      let gs' := groupSet st.gs t (g.erase q)
      let sel' := if decide (q ∈ st.sel) then st.sel else st.sel ++ [q]
      let st' := { st with sel := sel', gs := gs', rs := st.rs.tail }
      if count ≤ sel'.length then { st' with broke := true }
      else examFor count ts st'

/-- The outer while-loop of _select_exam_questions, fuelled.  When a pass
breaks out the selection is returned; when every group is exhausted and
the target is not reached the selection is topped off with a random
sample of the unselected pool. -/
def examLoop (count : Nat) (fkeys : List String) : Nat → ExamPass → List String
  | 0, st => st.sel
  | fuel + 1, st =>
    if st.sel.length < count ∧ st.tl ≠ [] then
      let st' := examFor count st.tl st
      if st'.broke then st'.sel
      else if st'.sel.length < count ∧ allGroupsEmpty st'.gs then
        let remaining := fkeys.filter (fun q => decide (q ∉ st'.sel))
        st'.sel ++ pySample st'.rs (min (count - st'.sel.length) remaining.length) remaining
      else examLoop count fkeys fuel st'
    else st.sel

/-- Embedding of QuizEngine._select_exam_questions.  The fuel bound is one
more than the total group size, which the termination analysis below
shows is never exhausted. -/
def selectExamQuestions (rs : List Nat) (filtered : List (String × Question))
    (count : Nat) : List String :=
  let gs := buildTopicGroups filtered
  let fkeys := filtered.map (fun p => p.1)
  examLoop count fkeys (groupsTotalSize gs + 1)
    { sel := [], tl := gs.map (fun p => p.1), gs := gs, rs := rs, broke := false }

/-! ## Derived notions used by the theorems -/

/-- A sequence of update_question_progress calls, each with its own
timestamp, question id and correctness. -/
def applyUpdates : List (ℚ × String × Bool) → DataManagerState → Option DataManagerState
  | [], dm => some dm
  | (t, q, b) :: rest, dm => (updateQuestionProgress t q b dm).bind (applyUpdates rest)

/-- Total recorded attempts for a question (zero when no row exists). -/
def attemptsOf (dm : DataManagerState) (qid : String) : Int :=
  match lookupProgress dm.question_progress qid with
  | some r => r.correct_attempts + r.wrong_attempts
  | none => 0

/-- Invariant threaded through the exam-mode selection loop: the selection
is duplicate-free and drawn from the pool, groups hold pool identifiers
under duplicate-free keys, and a topic dropped from topics_list has an
exhausted group. -/
def ExamInv (fkeys : List String) (st : ExamPass) : Prop :=
  st.sel.Nodup ∧ (∀ q ∈ st.sel, q ∈ fkeys) ∧
  (∀ p ∈ st.gs, ∀ q ∈ p.2, q ∈ fkeys) ∧
  ((st.gs.map (fun p => p.1)).Nodup) ∧
  (∀ p ∈ st.gs, p.1 ∉ st.tl → p.2 = [])

/-! ## Concrete inputs used by counterexamples and witnesses -/

/-- A question tagged with the single topic T. -/
def qTopicT : Question := { topics := ["T"] }

/-- DataManager state for the C1 failing input: topic T has exactly one
catalog question, never answered. -/
def dmC1 : DataManagerState :=
  { questions := [("q1", qTopicT)], question_progress := [], learning_sessions := [],
    topic_progress := [{ topic_name := "T", total_questions := 1, correct_answers := 0,
                         mastery_percentage := 0 }] }

/-- DataManager state for the C2 counterexample: topic A has 3 recorded
correct answers before the refresh. -/
def dmC2 : DataManagerState :=
  { questions := [], question_progress := [], learning_sessions := [],
    topic_progress :=
      [{ topic_name := "A", total_questions := 5, correct_answers := 3,
         mastery_percentage := 60 },
       { topic_name := "B", total_questions := 2, correct_answers := 1,
         mastery_percentage := 50 }] }

/-- Reloaded catalog for the C2 counterexample: topic A survives with two
questions, topic B disappears, topic C is new. -/
def catC2 : List (String × Question) :=
  [("x", { topics := ["A"] }), ("y", { topics := ["A", "C"] })]

/-- A text question with five keywords, for the C7 witness. -/
def qC7 : Question :=
  { qtype := "text", model_answer := "m".data,
    keywords := ["alpha".data, "beta".data, "gamma".data, "delta".data, "eps".data] }

/-- An answer containing three of the five keywords of qC7. -/
def ans3C7 : List Char := "Alpha and BETA plus gamma".data

/-- Progress rows for the C6 witness: question a has success rate 20
percent, question c has 80 percent, question b is unseen. -/
def progC6 : List ProgressRow :=
  [{ question_id := "a", correct_attempts := 1, wrong_attempts := 4, last_attempt := 0,
     next_review := none, mastery_level := 0 },
   { question_id := "c", correct_attempts := 4, wrong_attempts := 1, last_attempt := 0,
     next_review := none, mastery_level := 0 }]

/-- Pool for the C6 witness, deliberately ordered c, a, b. -/
def poolC6 : List (String × Question) := [("c", {}), ("a", {}), ("b", {})]

/-- Engine state with an active session and current question, for the C8,
C9 and C10 witnesses. -/
def sessW : Session :=
  { mode := "normal", topics := ["T"], question_count := 2, start_time := 100,
    questions_answered := 0, correct_answers := 0 }

/-- A multiple-choice question with two options, for the C9 witness. -/
def qMC : Question := { options := ["yes".data, "no".data], correct_answer := 0 }

/-- Engine state used as concrete input by the session-lifecycle
witnesses. -/
def stW : EngineState :=
  { dm := { questions := [("q1", qMC)], question_progress := [], topic_progress := [],
            learning_sessions := [] },
    current_session := some sessW,
    current_question := some { id := "q1", data := qMC, start_time := 101 },
    session_questions := [], session_results := [] }

/-- DataManager state for the spaced-repetition and C4 witnesses. -/
def dmW : DataManagerState :=
  { questions := [("a", {}), ("b", {}), ("c", {}), ("d", {})],
    question_progress :=
      [{ question_id := "a", correct_attempts := 1, wrong_attempts := 0, last_attempt := 0,
         next_review := some 50, mastery_level := 1 },
       { question_id := "b", correct_attempts := 0, wrong_attempts := 1, last_attempt := 1,
         next_review := some 60, mastery_level := 0 }],
    topic_progress := [], learning_sessions := [] }

/-- The progress row of question a in dmW. -/
def rowWa : ProgressRow :=
  { question_id := "a", correct_attempts := 1, wrong_attempts := 0, last_attempt := 0,
    next_review := some 50, mastery_level := 1 }

/-- Pool of four untagged questions for the C3 witness. -/
def poolC3 : List (String × Question) :=
  [("a", { topics := ["T"] }), ("b", { topics := ["T"] }), ("c", {}), ("d", {})]

/-! # Theorems

## Generic lemmas about the helper functions -/

theorem insertLe_perm {α : Type} (le : α → α → Bool) (x : α) (l : List α) :
    (insertLe le x l).Perm (x :: l) := by
  induction l with
  | nil => simp [insertLe]
  | cons y ys ih =>
    cases hle : le x y with
    | true => simp [insertLe, hle]
    | false =>
      simp only [insertLe, hle, Bool.false_eq_true, if_false]
      exact (ih.cons y).trans (List.Perm.swap x y ys)

theorem sortByLe_perm {α : Type} (le : α → α → Bool) (l : List α) :
    (sortByLe le l).Perm l := by
  induction l with
  | nil => simp [sortByLe]
  | cons a l ih =>
    have : sortByLe le (a :: l) = insertLe le a (sortByLe le l) := rfl
    rw [this]
    exact (insertLe_perm le a (sortByLe le l)).trans (ih.cons a)

theorem extractIdx_spec {α : Type} :
    ∀ (l : List α) (i : Nat), i < l.length →
      ∃ x rest, extractIdx i l = some (x, rest) ∧ l.Perm (x :: rest) := by
  intro l
  induction l with
  | nil => intro i hi; simp at hi
  | cons y ys ih =>
    intro i hi
    cases i with
    | zero => exact ⟨y, ys, by simp [extractIdx], List.Perm.refl _⟩
    | succ j =>
      have hj : j < ys.length := by simpa using hi
      obtain ⟨x, rest, hx, hperm⟩ := ih j hj
      refine ⟨x, y :: rest, ?_, ?_⟩
      · simp [extractIdx, hx]
      · exact (hperm.cons y).trans (List.Perm.swap x y rest)

theorem shuffleAux_perm {α : Type} :
    ∀ (fuel : Nat) (rs : List Nat) (l : List α), l.length = fuel →
      (shuffleAux fuel rs l).Perm l := by
  intro fuel
  induction fuel with
  | zero =>
    intro rs l hl
    have : l = [] := List.length_eq_zero.mp hl
    subst this
    simp [shuffleAux]
  | succ n ih =>
    intro rs l hl
    have hpos : 0 < l.length := by omega
    have hlt : rs.headD 0 % l.length < l.length := Nat.mod_lt _ hpos
    obtain ⟨x, rest, hx, hperm⟩ := extractIdx_spec l _ hlt
    have hrest : rest.length = n := by
      have := hperm.length_eq
      simp at this
      omega
    simp only [shuffleAux, hx]
    exact ((ih rs.tail rest hrest).cons x).trans hperm.symm

theorem pyShuffle_perm {α : Type} (rs : List Nat) (l : List α) :
    (pyShuffle rs l).Perm l :=
  shuffleAux_perm l.length rs l rfl

theorem getD_mod_mem {α : Type} (l : List α) (i : Nat) (d : α) (h : l ≠ []) :
    l.getD (i % l.length) d ∈ l := by
  have hpos : 0 < l.length := List.length_pos.mpr h
  have hlt : i % l.length < l.length := Nat.mod_lt _ hpos
  rw [List.getD_eq_getElem _ _ hlt]
  exact List.getElem_mem hlt

theorem nodup_subset_length_le {α : Type} {l1 l2 : List α}
    (h1 : l1.Nodup) (hsub : l1 ⊆ l2) : l1.length ≤ l2.length :=
  (h1.subperm hsub).length_le

theorem length_filter_not_mem {α : Type} [DecidableEq α] (l sel : List α)
    (hl : l.Nodup) (hsel : sel.Nodup) (hsub : ∀ x ∈ sel, x ∈ l) :
    (l.filter (fun q => decide (q ∉ sel))).length = l.length - sel.length := by
  have hperm := List.filter_append_perm (fun q => decide (q ∉ sel)) l
  have hmemperm : (l.filter (fun q => !decide (q ∉ sel))).Perm sel := by
    have hf : l.filter (fun q => !decide (q ∉ sel)) = l.filter (fun q => decide (q ∈ sel)) := by
      apply List.filter_congr
      intro x _
      simp
    rw [hf]
    refine (List.perm_ext_iff_of_nodup (hl.filter _) hsel).mpr ?_
    intro a
    simp only [List.mem_filter, decide_eq_true_eq]
    exact ⟨fun h => h.2, fun h => ⟨hsub a h, h⟩⟩
  have hlen := hperm.length_eq
  have hlen2 := hmemperm.length_eq
  simp only [List.length_append] at hlen
  omega

theorem nodup_pairwise_indexOf {α : Type} [DecidableEq α] :
    ∀ (l : List α), l.Nodup → l.Pairwise (fun a b => l.indexOf a < l.indexOf b) := by
  intro l
  induction l with
  | nil => intro h; simp
  | cons a l ih =>
    intro h
    rw [List.nodup_cons] at h
    rw [List.pairwise_cons]
    constructor
    · intro b hb
      have hba : b ≠ a := fun he => h.1 (he ▸ hb)
      rw [List.indexOf_cons_self, List.indexOf_cons_ne _ (fun he => hba he.symm)]
      exact Nat.succ_pos _
    · refine (ih h.2).imp_of_mem ?_
      intro x y hx hy hxy
      have hxa : x ≠ a := fun he => h.1 (he ▸ hx)
      have hya : y ≠ a := fun he => h.1 (he ▸ hy)
      rw [List.indexOf_cons_ne _ (fun he => hxa he.symm),
        List.indexOf_cons_ne _ (fun he => hya he.symm)]
      omega

/-! ## Claim C5: the spaced-repetition next-review computation -/

theorem pyIndexGet_nonneg (l : List ℚ) (i : Int) (h : 0 ≤ i) :
    pyIndexGet l i = l.get? i.toNat := by
  simp [pyIndexGet, h]

/-- Claim C5, counterexample: the claim states that the next-review index
clamps the mastery level to [0,5], so m = -1 would use interval[0] = 1
day; the code instead indexes the table from the end, giving 30 days. -/
theorem C5_counterexample :
    calculateNextReview 0 (-1) (some 0) = some (30 * 86400) ∧
      (30 * 86400 : ℚ) ≠ 1 * 86400 := by
  constructor
  · have h : pyIndexGet intervals (min (-1 : Int) 5) = some 30 := by decide
    simp only [calculateNextReview, h, Option.map_some, Option.getD_some]
    norm_num
  · norm_num

/-- Claim C5 (amended): for every mastery level m that is at least 0 and
every parseable last-reviewed timestamp t, the next review is t plus
interval[min(m, 5)] days with interval = [1, 2, 4, 7, 14, 30]; when the
timestamp is unparseable the current time is substituted.  (For m below 0
the code indexes the interval table from the end instead of clamping.) -/
theorem calculateNextReview_pyIndexGet (m : Int) (hm : 0 ≤ m) :
    pyIndexGet intervals (min m 5) = some (intervals.getD (min m 5).toNat 0) := by
  have hge : (0 : Int) ≤ min m 5 := le_min hm (by norm_num)
  have hle : min m 5 ≤ 5 := min_le_right _ _
  have hlt : (min m 5).toNat < intervals.length := by
    simp only [intervals, List.length_cons, List.length_nil]
    omega
  rw [pyIndexGet_nonneg _ _ hge, List.getD_eq_getElem _ _ hlt]
  simp [List.get?_eq_getElem?, List.getElem?_eq_getElem hlt]

theorem calculateNextReview_eq_some (now : ℚ) (m : Int) (hm : 0 ≤ m) (last : Option ℚ) :
    calculateNextReview now m last =
      some (last.getD now + intervals.getD (min m 5).toNat 0 * 86400) := by
  rw [calculateNextReview, calculateNextReview_pyIndexGet m hm]
  rfl

theorem C5_next_review (now t : ℚ) (m : Int) (hm : 0 ≤ m) :
    calculateNextReview now m (some t) =
      some (t + intervals.getD (min m 5).toNat 0 * 86400) ∧
    calculateNextReview now m none =
      some (now + intervals.getD (min m 5).toNat 0 * 86400) :=
  ⟨calculateNextReview_eq_some now m hm (some t),
   calculateNextReview_eq_some now m hm none⟩

theorem C5_next_review_witness :
    calculateNextReview 9 7 (some 3) =
      some (3 + intervals.getD (min (7 : Int) 5).toNat 0 * 86400) ∧
    calculateNextReview 9 7 none =
      some (9 + intervals.getD (min (7 : Int) 5).toNat 0 * 86400) :=
  C5_next_review 9 3 7 (by norm_num)

/-! ## Claim C1: the topic mastery percentage after a correct answer -/

/-- Claim C1, behaviour of the code at the failing input: topic T has one
question and no recorded correct answer; after answering its only
question correctly the stored correct-answer count becomes 1, but the
stored mastery percentage is 0 because the SQL SET clause reads the
pre-update correct_answers - the claim (and the spec invariant
correct_answers * 100 / total_questions) requires 1 * 100 / 1 = 100. -/
theorem C1_topic_mastery_stale :
    (updateQuestionProgress 0 "q1" true dmC1).map (fun dm => dm.topic_progress) =
      some [{ topic_name := "T", total_questions := 1, correct_answers := 1,
              mastery_percentage := 0 }] ∧
    (0 : ℚ) ≠ 1 * 100 / 1 := by
  constructor
  · simp only [updateQuestionProgress, updateProgressRowStep, updateTopicsStep, dmC1,
      qTopicT, lookupProgress, lookupQuestion, calculateNextReview, pyIndexGet, intervals,
      replaceProgress, updateTopicTable, bumpTopicRow, List.find?, List.map, List.foldl]
    norm_num [updateTopicsStep, lookupQuestion, updateTopicTable, bumpTopicRow,
      List.find?, List.map, List.foldl, min_def, Int.toNat_ofNat, TopicRow.mk.injEq]
  · norm_num

/-! ## Claim C2: refresh of the topic table against the catalog -/

theorem find?_map_replace_self (rows : List TopicRow) (r : TopicRow) :
    ((rows.map (fun r0 => if r0.topic_name == r.topic_name then r else r0)).find?
        (fun r0 => r0.topic_name == r.topic_name)) =
      if (rows.find? (fun r0 => r0.topic_name == r.topic_name)).isSome then some r
      else none := by
  induction rows with
  | nil => simp
  | cons a rows ih =>
    rw [List.map_cons]
    by_cases ha : (a.topic_name == r.topic_name) = true
    · rw [if_pos ha]
      simp [List.find?, ha, beq_self_eq_true]
    · have haf : (a.topic_name == r.topic_name) = false := by simpa using ha
      rw [if_neg ha]
      simp only [List.find?, haf]
      exact ih

theorem find?_map_replace_other (rows : List TopicRow) (r : TopicRow) (t : String)
    (hne : t ≠ r.topic_name) :
    ((rows.map (fun r0 => if r0.topic_name == r.topic_name then r else r0)).find?
        (fun r0 => r0.topic_name == t)) =
      rows.find? (fun r0 => r0.topic_name == t) := by
  have h1 : (r.topic_name == t) = false := by
    rw [beq_eq_false_iff_ne]
    exact fun hh => hne hh.symm
  induction rows with
  | nil => rfl
  | cons a rows ih =>
    rw [List.map_cons]
    by_cases ha : (a.topic_name == r.topic_name) = true
    · have ha' : a.topic_name = r.topic_name := by simpa using ha
      have h2 : (a.topic_name == t) = false := by rw [ha']; exact h1
      rw [if_pos ha]
      simp only [List.find?, h1, h2]
      exact ih
    · rw [if_neg ha]
      by_cases hat : (a.topic_name == t) = true
      · simp [List.find?, hat]
      · have hatf : (a.topic_name == t) = false := by simpa using hat
        simp only [List.find?, hatf]
        exact ih

theorem lookupTopic_upsert_self (rows : List TopicRow) (r : TopicRow) :
    lookupTopic (upsertTopic rows r) r.topic_name = some r := by
  unfold upsertTopic lookupTopic
  by_cases h : (rows.find? (fun r0 => r0.topic_name == r.topic_name)).isSome = true
  · rw [if_pos h, find?_map_replace_self, if_pos h]
  · rw [if_neg h, List.find?_append]
    have hn : rows.find? (fun r0 => r0.topic_name == r.topic_name) = none := by
      cases hx : rows.find? (fun r0 => r0.topic_name == r.topic_name) with
      | none => rfl
      | some v => rw [hx] at h; simp at h
    rw [hn]
    simp

theorem lookupTopic_upsert_other (rows : List TopicRow) (r : TopicRow) (t : String)
    (hne : t ≠ r.topic_name) :
    lookupTopic (upsertTopic rows r) t = lookupTopic rows t := by
  unfold upsertTopic lookupTopic
  by_cases h : (rows.find? (fun r0 => r0.topic_name == r.topic_name)).isSome = true
  · rw [if_pos h]
    exact find?_map_replace_other rows r t hne
  · rw [if_neg h, List.find?_append]
    have hr : (r.topic_name == t) = false := by
      rw [beq_eq_false_iff_ne]
      exact fun hh => hne hh.symm
    simp [List.find?, hr]

theorem lookupTopic_fold_not_mem (rowFor : String → TopicRow)
    (hids : ∀ u, (rowFor u).topic_name = u) :
    ∀ (ts : List String) (init : List TopicRow) (t : String), t ∉ ts →
      lookupTopic (ts.foldl (fun rows u => upsertTopic rows (rowFor u)) init) t =
        lookupTopic init t := by
  intro ts
  induction ts with
  | nil => intro init t ht; rfl
  | cons u ts ih =>
    intro init t ht
    rw [List.foldl_cons]
    have htu : t ≠ u := fun he => ht (he ▸ List.mem_cons_self u ts)
    have hts : t ∉ ts := fun he => ht (List.mem_cons_of_mem u he)
    rw [ih _ t hts]
    exact lookupTopic_upsert_other init (rowFor u) t (by rw [hids u]; exact htu)

theorem lookupTopic_fold_mem (rowFor : String → TopicRow)
    (hids : ∀ u, (rowFor u).topic_name = u) :
    ∀ (ts : List String) (init : List TopicRow) (t : String), ts.Nodup → t ∈ ts →
      lookupTopic (ts.foldl (fun rows u => upsertTopic rows (rowFor u)) init) t =
        some (rowFor t) := by
  intro ts
  induction ts with
  | nil => intro init t _ ht; simp at ht
  | cons u ts ih =>
    intro init t hnd ht
    rw [List.foldl_cons]
    rcases List.mem_cons.mp ht with he | hm
    · subst he
      have hts : t ∉ ts := (List.nodup_cons.mp hnd).1
      rw [lookupTopic_fold_not_mem rowFor hids ts _ t hts]
      have h := lookupTopic_upsert_self init (rowFor t)
      rwa [hids t] at h
    · exact ih _ t (List.nodup_cons.mp hnd).2 hm

/-- Claim C2, counterexample: topic A survives the refresh (it is still in
the catalog) but its stored correct-answer count is reset to 0 by the
INSERT OR REPLACE, not left at its prior value 3; likewise the mastery
percentage drops from 60 to 0. -/
theorem C2_counterexample :
    (lookupTopic (refreshAllData catC2 dmC2).topic_progress "A").map
        (fun r => (r.correct_answers, r.mastery_percentage)) = some ((0 : Int), (0 : ℚ)) ∧
    (lookupTopic dmC2.topic_progress "A").map
        (fun r => (r.correct_answers, r.mastery_percentage)) = some ((3 : Int), (60 : ℚ)) ∧
    ((0 : Int), (0 : ℚ)) ≠ ((3 : Int), (60 : ℚ)) := by
  refine ⟨by decide, by decide, by decide⟩

/-- Claim C2 (amended): a full refresh of the topic table deletes topics
no longer present in the catalog and writes, for EVERY current topic
(surviving or new), a row with the freshly computed catalog-derived
question count and with correct-answer count and mastery percentage both
reset to 0; prior correct/mastery values of surviving topics are NOT
preserved. -/
theorem C2_refresh_topics (cat : List (String × Question)) (dm : DataManagerState) :
    (∀ t ∈ topicsOfCatalog cat,
      lookupTopic (refreshAllData cat dm).topic_progress t =
        some { topic_name := t, total_questions := countTopicQuestions cat t,
               correct_answers := 0, mastery_percentage := 0 }) ∧
    (∀ t, t ∉ topicsOfCatalog cat →
      lookupTopic (refreshAllData cat dm).topic_progress t = none) := by
  constructor
  · intro t ht
    have hnd : (topicsOfCatalog cat).Nodup := by
      unfold topicsOfCatalog
      exact List.nodup_dedup _
    have h := lookupTopic_fold_mem
      (fun u => ({ topic_name := u, total_questions := countTopicQuestions cat u,
                   correct_answers := 0, mastery_percentage := 0 } : TopicRow))
      (fun u => rfl) (topicsOfCatalog cat)
      (dm.topic_progress.filter (fun r => decide (r.topic_name ∈ topicsOfCatalog cat)))
      t hnd ht
    simpa [refreshAllData] using h
  · intro t ht
    have h := lookupTopic_fold_not_mem
      (fun u => ({ topic_name := u, total_questions := countTopicQuestions cat u,
                   correct_answers := 0, mastery_percentage := 0 } : TopicRow))
      (fun u => rfl) (topicsOfCatalog cat)
      (dm.topic_progress.filter (fun r => decide (r.topic_name ∈ topicsOfCatalog cat)))
      t ht
    have hkept : lookupTopic
        (dm.topic_progress.filter (fun r => decide (r.topic_name ∈ topicsOfCatalog cat)))
        t = none := by
      unfold lookupTopic
      rw [List.find?_eq_none]
      intro x hx hb
      have hx2 := List.mem_filter.mp hx
      have hxt : x.topic_name = t := by simpa using hb
      exact ht (hxt ▸ (by simpa using hx2.2))
    rw [hkept] at h
    simpa [refreshAllData] using h

theorem C2_refresh_topics_witness :
    "A" ∈ topicsOfCatalog catC2 ∧
    lookupTopic (refreshAllData catC2 dmC2).topic_progress "A" =
      some { topic_name := "A", total_questions := countTopicQuestions catC2 "A",
             correct_answers := 0, mastery_percentage := 0 } :=
  ⟨by decide, (C2_refresh_topics catC2 dmC2).1 "A" (by decide)⟩

/-! ## Claim C4: mastery-level transitions and range invariant -/

theorem newMastery_bounds (m : Int) (b : Bool) (h0 : 0 ≤ m) (h5 : m ≤ 5) :
    0 ≤ (if b then min (m + 1) 5 else max (m - 1) 0) ∧
    (if b then min (m + 1) 5 else max (m - 1) 0) ≤ 5 := by
  cases b <;> simp <;> omega

theorem newMastery_nonneg (m : Int) (b : Bool) (hm : 0 ≤ m) :
    0 ≤ (if b then min (m + 1) 5 else max (m - 1) 0) := by
  cases b with
  | false => simp
  | true => simp only [if_true]; omega

theorem updateTopicsStep_question_progress (qid : String) (b : Bool)
    (dm1 : DataManagerState) :
    (updateTopicsStep qid b dm1).question_progress = dm1.question_progress := by
  unfold updateTopicsStep
  rcases lookupQuestion dm1.questions qid with _ | q <;> cases b <;> rfl

theorem update_some_char (now : ℚ) (qid : String) (b : Bool) (dm : DataManagerState)
    (row : ProgressRow) (h : lookupProgress dm.question_progress qid = some row)
    (hm : 0 ≤ row.mastery_level) :
    ∃ nr, updateQuestionProgress now qid b dm =
      some (updateTopicsStep qid b
        { dm with question_progress :=
                    replaceProgress dm.question_progress qid
                      { question_id := qid,
                        correct_attempts := row.correct_attempts + (if b then 1 else 0),
                        wrong_attempts := row.wrong_attempts + (if b then 0 else 1),
                        last_attempt := now, next_review := some nr,
                        mastery_level := if b then min (row.mastery_level + 1) 5
                                         else max (row.mastery_level - 1) 0 } }) := by
  have hm' : 0 ≤ (if b then min (row.mastery_level + 1) 5
      else max (row.mastery_level - 1) 0) := newMastery_nonneg _ b hm
  have hc := calculateNextReview_eq_some now _ hm' (some now)
  have h1 : updateProgressRowStep now qid b dm = some
      { dm with question_progress :=
                  replaceProgress dm.question_progress qid
                    { question_id := qid,
                      correct_attempts := row.correct_attempts + (if b then 1 else 0),
                      wrong_attempts := row.wrong_attempts + (if b then 0 else 1),
                      last_attempt := now,
                      next_review := some (now + intervals.getD
                        (min (if b then min (row.mastery_level + 1) 5
                              else max (row.mastery_level - 1) 0) 5).toNat 0 * 86400),
                      mastery_level := if b then min (row.mastery_level + 1) 5
                                       else max (row.mastery_level - 1) 0 } } := by
    unfold updateProgressRowStep
    rw [h]
    simp only [hc]
    rfl
  refine ⟨now + intervals.getD
    (min (if b then min (row.mastery_level + 1) 5
          else max (row.mastery_level - 1) 0) 5).toNat 0 * 86400, ?_⟩
  unfold updateQuestionProgress
  rw [h1]
  rfl

theorem update_none_char (now : ℚ) (qid : String) (b : Bool) (dm : DataManagerState)
    (h : lookupProgress dm.question_progress qid = none) :
    ∃ nr, updateQuestionProgress now qid b dm =
      some (updateTopicsStep qid b
        { dm with question_progress :=
                    dm.question_progress ++
                      [{ question_id := qid, correct_attempts := if b then 1 else 0,
                         wrong_attempts := if b then 0 else 1, last_attempt := now,
                         next_review := some nr,
                         mastery_level := if b then 1 else 0 }] }) := by
  have hm' : (0 : Int) ≤ (if b then 1 else 0) := by cases b <;> simp
  have hc := calculateNextReview_eq_some now (if b then 1 else 0) hm' (some now)
  have h1 : updateProgressRowStep now qid b dm = some
      { dm with question_progress :=
                  dm.question_progress ++
                    [{ question_id := qid, correct_attempts := if b then 1 else 0,
                       wrong_attempts := if b then 0 else 1, last_attempt := now,
                       next_review := some (now + intervals.getD
                         (min (if b then (1 : Int) else 0) 5).toNat 0 * 86400),
                       mastery_level := if b then 1 else 0 }] } := by
    unfold updateProgressRowStep
    rw [h]
    simp only [hc]
    rfl
  refine ⟨now + intervals.getD (min (if b then (1 : Int) else 0) 5).toNat 0 * 86400, ?_⟩
  unfold updateQuestionProgress
  rw [h1]
  rfl

theorem lookupProgress_replaceProgress (rows : List ProgressRow) (qid : String)
    (r : ProgressRow) (hr : r.question_id = qid) :
    ∀ row, lookupProgress rows qid = some row →
      lookupProgress (replaceProgress rows qid r) qid = some r := by
  induction rows with
  | nil => intro row hrow; simp [lookupProgress] at hrow
  | cons a rows ih =>
    intro row hrow
    unfold lookupProgress at hrow ⊢
    unfold replaceProgress
    by_cases ha : (a.question_id == qid) = true
    · rw [List.map_cons, if_pos ha]
      simp only [List.find?]
      rw [show (r.question_id == qid) = true by simp [hr]]
    · have haf : (a.question_id == qid) = false := by simpa using ha
      rw [List.map_cons, if_neg ha]
      simp only [List.find?, haf] at hrow ⊢
      exact ih row hrow

theorem lookupProgress_append_new (rows : List ProgressRow) (qid : String)
    (r : ProgressRow) (h : lookupProgress rows qid = none) (hr : r.question_id = qid) :
    lookupProgress (rows ++ [r]) qid = some r := by
  unfold lookupProgress at h ⊢
  rw [List.find?_append, h]
  simp [List.find?, hr]

theorem update_preserves_wf (now : ℚ) (qid : String) (b : Bool)
    (dm dm' : DataManagerState)
    (hwf : ∀ r ∈ dm.question_progress, 0 ≤ r.mastery_level ∧ r.mastery_level ≤ 5)
    (h : updateQuestionProgress now qid b dm = some dm') :
    ∀ r ∈ dm'.question_progress, 0 ≤ r.mastery_level ∧ r.mastery_level ≤ 5 := by
  cases hl : lookupProgress dm.question_progress qid with
  | some row =>
    have hrow := hwf row (List.mem_of_find?_eq_some hl)
    obtain ⟨nr, heq⟩ := update_some_char now qid b dm row hl hrow.1
    rw [heq] at h
    injection h with h
    subst h
    rw [updateTopicsStep_question_progress]
    intro r hr
    unfold replaceProgress at hr
    obtain ⟨r0, hr0, hre⟩ := List.mem_map.mp hr
    by_cases hcnd : (r0.question_id == qid) = true
    · rw [if_pos hcnd] at hre
      subst hre
      exact newMastery_bounds row.mastery_level b hrow.1 hrow.2
    · rw [if_neg hcnd] at hre
      subst hre
      exact hwf r0 hr0
  | none =>
    obtain ⟨nr, heq⟩ := update_none_char now qid b dm hl
    rw [heq] at h
    injection h with h
    subst h
    rw [updateTopicsStep_question_progress]
    intro r hr
    rcases List.mem_append.mp hr with hm | hm
    · exact hwf r hm
    · have hre : r = { question_id := qid,
                       correct_attempts := if b then 1 else 0,
                       wrong_attempts := if b then 0 else 1, last_attempt := now,
                       next_review := some nr, mastery_level := if b then 1 else 0 } := by
        simpa using hm
      subst hre
      cases b <;> simp

theorem applyUpdates_wf (ops : List (ℚ × String × Bool)) :
    ∀ dm dm' : DataManagerState,
      (∀ r ∈ dm.question_progress, 0 ≤ r.mastery_level ∧ r.mastery_level ≤ 5) →
      applyUpdates ops dm = some dm' →
      ∀ r ∈ dm'.question_progress, 0 ≤ r.mastery_level ∧ r.mastery_level ≤ 5 := by
  induction ops with
  | nil =>
    intro dm dm' hwf h
    have h2 : some dm = some dm' := h
    injection h2 with h2
    subst h2
    exact hwf
  | cons op rest ih =>
    intro dm dm' hwf h
    obtain ⟨t, q, b⟩ := op
    simp only [applyUpdates] at h
    cases hu : updateQuestionProgress t q b dm with
    | none => rw [hu] at h; simp at h
    | some dm1 =>
      rw [hu] at h
      have h2 : applyUpdates rest dm1 = some dm' := h
      exact ih dm1 dm' (update_preserves_wf t q b dm dm1 hwf hu) h2

/-- Claim C4: on an existing progress row, update_progress moves the
mastery level by exactly +1 on a correct answer capped at 5 and by
exactly -1 on an incorrect answer floored at 0 (and bumps the matching
attempt counter); a first attempt initializes the row to correct=1,
wrong=0, mastery=1 when correct and correct=0, wrong=1, mastery=0 when
incorrect; and every mastery level reachable from an empty progress table
by any sequence of updates lies in [0, 5]. -/
theorem C4_mastery_transitions :
    (∀ (now : ℚ) (qid : String) (b : Bool) (dm : DataManagerState) (row : ProgressRow),
      lookupProgress dm.question_progress qid = some row → 0 ≤ row.mastery_level →
      ∃ dm', updateQuestionProgress now qid b dm = some dm' ∧
        ∃ row', lookupProgress dm'.question_progress qid = some row' ∧
          row'.mastery_level = (if b then min (row.mastery_level + 1) 5
                                else max (row.mastery_level - 1) 0) ∧
          row'.correct_attempts = row.correct_attempts + (if b then 1 else 0) ∧
          row'.wrong_attempts = row.wrong_attempts + (if b then 0 else 1)) ∧
    (∀ (now : ℚ) (qid : String) (b : Bool) (dm : DataManagerState),
      lookupProgress dm.question_progress qid = none →
      ∃ dm', updateQuestionProgress now qid b dm = some dm' ∧
        ∃ row', lookupProgress dm'.question_progress qid = some row' ∧
          row'.correct_attempts = (if b then 1 else 0) ∧
          row'.wrong_attempts = (if b then 0 else 1) ∧
          row'.mastery_level = (if b then 1 else 0)) ∧
    (∀ (ops : List (ℚ × String × Bool)) (dm dm' : DataManagerState),
      dm.question_progress = [] → applyUpdates ops dm = some dm' →
      ∀ r ∈ dm'.question_progress, 0 ≤ r.mastery_level ∧ r.mastery_level ≤ 5) := by
  refine ⟨?_, ?_, ?_⟩
  · intro now qid b dm row h hm
    obtain ⟨nr, heq⟩ := update_some_char now qid b dm row h hm
    refine ⟨_, heq, ?_⟩
    refine ⟨{ question_id := qid,
              correct_attempts := row.correct_attempts + (if b then 1 else 0),
              wrong_attempts := row.wrong_attempts + (if b then 0 else 1),
              last_attempt := now, next_review := some nr,
              mastery_level := if b then min (row.mastery_level + 1) 5
                               else max (row.mastery_level - 1) 0 }, ?_, rfl, rfl, rfl⟩
    rw [updateTopicsStep_question_progress]
    exact lookupProgress_replaceProgress dm.question_progress qid _ rfl row h
  · intro now qid b dm h
    obtain ⟨nr, heq⟩ := update_none_char now qid b dm h
    refine ⟨_, heq, ?_⟩
    refine ⟨{ question_id := qid,
              correct_attempts := if b then 1 else 0,
              wrong_attempts := if b then 0 else 1,
              last_attempt := now, next_review := some nr,
              mastery_level := if b then 1 else 0 }, ?_, rfl, rfl, rfl⟩
    rw [updateTopicsStep_question_progress]
    exact lookupProgress_append_new dm.question_progress qid _ h rfl
  · intro ops dm dm' hempty h
    refine applyUpdates_wf ops dm dm' ?_ h
    rw [hempty]
    simp

theorem C4_mastery_transitions_witness :
    (lookupProgress dmW.question_progress "a" = some rowWa ∧ 0 ≤ rowWa.mastery_level) ∧
    (∃ dm', updateQuestionProgress 7 "a" true dmW = some dm' ∧
      ∃ row', lookupProgress dm'.question_progress "a" = some row' ∧
        row'.mastery_level = (if true then min (rowWa.mastery_level + 1) 5
                              else max (rowWa.mastery_level - 1) 0) ∧
        row'.correct_attempts = rowWa.correct_attempts + (if true then 1 else 0) ∧
        row'.wrong_attempts = rowWa.wrong_attempts + (if true then 0 else 1)) :=
  ⟨⟨by decide, by decide⟩,
   C4_mastery_transitions.1 7 "a" true dmW rowWa (by decide) (by decide)⟩

/-! ## Claim C7: keyword grading of text answers -/

/-- Claim C7: for a text question with a non-empty keyword list, a
submitted string answer is graded correct exactly when the number of
keywords found case-insensitively as substrings of the answer is at least
0.6 times the keyword-list length, the comparison being exact (no
rounding): equivalently 5 * found is at least 3 * total. -/
theorem C7_keyword_grading (ratio : List Char → List Char → ℚ) (q : Question)
    (ans : List Char) (hq : q.qtype = "text") (hk : q.keywords ≠ []) :
    ∃ res, gradeAnswer ratio q (.strAns ans) = some res ∧
      ((res.1 = true ↔
        ((q.keywords.length : ℚ) * (3 / 5) ≤
          ((q.keywords.filter (fun kw => hasSubstr (pyLower kw) (pyLower ans))).length : ℚ))) ∧
       (res.1 = true ↔
        3 * q.keywords.length ≤
          5 * (q.keywords.filter (fun kw => hasSubstr (pyLower kw) (pyLower ans))).length)) := by
  have h1 : (q.qtype == "multiple_choice") = false := by rw [hq]; decide
  have h2 : (q.qtype == "text") = true := by rw [hq]; decide
  refine ⟨(decide (((q.keywords.length : ℚ) * (3 / 5)) ≤
    ((q.keywords.filter (fun kw => hasSubstr (pyLower kw) (pyLower ans))).length : ℚ)),
    some q.model_answer), ?_, ?_, ?_⟩
  · unfold gradeAnswer
    rw [h1, h2]
    simp only [Bool.false_eq_true, if_false, if_true, if_pos hk]
  · simp [decide_eq_true_iff]
  · rw [decide_eq_true_iff]
    have hcast : ((3 : ℚ) * q.keywords.length ≤
        5 * ((q.keywords.filter (fun kw => hasSubstr (pyLower kw) (pyLower ans))).length : ℚ)) ↔
        (3 * q.keywords.length ≤
          5 * (q.keywords.filter (fun kw => hasSubstr (pyLower kw) (pyLower ans))).length) := by
      constructor
      · intro h; exact_mod_cast h
      · intro h; exact_mod_cast h
    rw [← hcast]
    constructor
    · intro h; nlinarith
    · intro h; nlinarith

theorem C7_keyword_grading_witness :
    (qC7.qtype = "text" ∧ qC7.keywords ≠ []) ∧
    (∃ res, gradeAnswer (fun _ _ => 0) qC7 (.strAns ans3C7) = some res ∧
      ((res.1 = true ↔
        ((qC7.keywords.length : ℚ) * (3 / 5) ≤
          ((qC7.keywords.filter
            (fun kw => hasSubstr (pyLower kw) (pyLower ans3C7))).length : ℚ))) ∧
       (res.1 = true ↔
        3 * qC7.keywords.length ≤
          5 * (qC7.keywords.filter
            (fun kw => hasSubstr (pyLower kw) (pyLower ans3C7))).length))) :=
  ⟨⟨rfl, by decide⟩, C7_keyword_grading (fun _ _ => 0) qC7 ans3C7 rfl (by decide)⟩

/-! ## Claim C8: end_session is idempotent -/

/-- Claim C8: ending an active session returns a summary; a second end in
a row returns none and changes nothing (in particular no second Learning
Session row is written); ending when idle returns none and leaves the
whole state unchanged. -/
theorem C8_end_idempotent (t1 t2 : ℚ) (st : EngineState) (sess : Session)
    (h : st.current_session = some sess) :
    (∃ s, (endSession t1 st).1 = some s) ∧
    (endSession t2 (endSession t1 st).2).1 = none ∧
    (endSession t2 (endSession t1 st).2).2 = (endSession t1 st).2 ∧
    (∀ (t : ℚ) (st0 : EngineState), st0.current_session = none →
      endSession t st0 = (none, st0)) := by
  have hidle : ∀ (t : ℚ) (st0 : EngineState), st0.current_session = none →
      endSession t st0 = (none, st0) := by
    intro t st0 h0
    unfold endSession
    rw [h0]
  have h2 : (endSession t1 st).2.current_session = none := by
    unfold endSession
    rw [h]
  have hfst : ∃ s, (endSession t1 st).1 = some s := by
    unfold endSession
    rw [h]
    exact ⟨_, rfl⟩
  refine ⟨hfst, ?_, ?_, hidle⟩
  · rw [hidle t2 _ h2]
  · rw [hidle t2 _ h2]

theorem C8_end_idempotent_witness :
    stW.current_session = some sessW ∧
    ((∃ s, (endSession 130 stW).1 = some s) ∧
     (endSession 201 (endSession 130 stW).2).1 = none ∧
     (endSession 201 (endSession 130 stW).2).2 = (endSession 130 stW).2 ∧
     (∀ (t : ℚ) (st0 : EngineState), st0.current_session = none →
       endSession t st0 = (none, st0))) :=
  ⟨rfl, C8_end_idempotent 130 201 stW sessW rfl⟩

/-! ## Claim C10: session duration is truncated toward zero -/

/-- Claim C10: end_session converts the elapsed wall-clock time from
seconds to minutes with Python int(), truncation toward zero; a session
shorter than 60 seconds yields duration_minutes = 0 both in the returned
summary and in the recorded Learning Session row. -/
theorem C10_duration_truncation (now : ℚ) (st : EngineState) (sess : Session)
    (h : st.current_session = some sess)
    (h0 : 0 ≤ now - sess.start_time) (h60 : now - sess.start_time < 60) :
    (∃ s, (endSession now st).1 = some s ∧ s.duration_minutes = 0) ∧
    (∃ row, (endSession now st).2.dm.learning_sessions =
      st.dm.learning_sessions ++ [row] ∧ row.duration_minutes = 0) := by
  have hq0 : 0 ≤ (now - sess.start_time) / 60 :=
    div_nonneg h0 (by norm_num)
  have hq1 : (now - sess.start_time) / 60 < 1 := by
    rw [div_lt_one (by norm_num : (0 : ℚ) < 60)]
    exact h60
  have hdur : pyInt ((now - sess.start_time) / 60) = 0 := by
    unfold pyInt
    rw [if_pos hq0]
    exact Int.floor_eq_zero_iff.mpr ⟨hq0, hq1⟩
  constructor
  · refine ⟨{ mode := sess.mode, topics := sess.topics,
              duration_minutes := pyInt ((now - sess.start_time) / 60),
              questions_total := sess.question_count,
              questions_answered := sess.questions_answered,
              correct_answers := sess.correct_answers,
              accuracy := if 0 < sess.questions_answered then
                ((sess.correct_answers : ℚ) / (sess.questions_answered : ℚ)) * 100 else 0,
              results := st.session_results }, ?_, ?_⟩
    · unfold endSession
      rw [h]
    · exact hdur
  · refine ⟨{ date := now, duration_minutes := pyInt ((now - sess.start_time) / 60),
              questions_answered := sess.questions_answered,
              correct_answers := sess.correct_answers,
              topics := sess.topics }, ?_, ?_⟩
    · unfold endSession
      rw [h]
      rfl
    · exact hdur

theorem C10_duration_truncation_witness :
    (stW.current_session = some sessW ∧ 0 ≤ (130 : ℚ) - sessW.start_time ∧
      (130 : ℚ) - sessW.start_time < 60) ∧
    ((∃ s, (endSession 130 stW).1 = some s ∧ s.duration_minutes = 0) ∧
     (∃ row, (endSession 130 stW).2.dm.learning_sessions =
       stW.dm.learning_sessions ++ [row] ∧ row.duration_minutes = 0)) :=
  ⟨⟨rfl, by norm_num [sessW], by norm_num [sessW]⟩,
   C10_duration_truncation 130 stW sessW rfl (by norm_num [sessW]) (by norm_num [sessW])⟩

/-! ## Claim C9: submit_answer keeps the current-question context -/

theorem submitAnswer_char (ratio : List Char → List Char → ℚ) (t : ℚ) (a : PyAnswer)
    (st : EngineState) (sess : Session) (cq : CurrentQuestion) (b : Bool)
    (ca : Option (List Char)) (dm' : DataManagerState)
    (hs : st.current_session = some sess) (hq : st.current_question = some cq)
    (hg : gradeAnswer ratio cq.data a = some (b, ca))
    (hd : updateQuestionProgress t cq.id b st.dm = some dm') :
    submitAnswer ratio t a st = some (some
      { question_id := cq.id, is_correct := b, user_answer := a, correct_answer := ca,
        explanation := cq.data.explanation, source_reference := cq.data.source_reference,
        time_taken := t - cq.start_time },
      { st with dm := dm',
                current_session := some { sess with
                  questions_answered := sess.questions_answered + 1,
                  correct_answers := sess.correct_answers + (if b then 1 else 0) },
                session_results := st.session_results ++
                  [{ question_id := cq.id, is_correct := b, user_answer := a,
                     correct_answer := ca, explanation := cq.data.explanation,
                     source_reference := cq.data.source_reference,
                     time_taken := t - cq.start_time }] }) := by
  unfold submitAnswer
  rw [hs, hq]
  simp only [hg, hd, Option.map_some]
  rfl

theorem update_succeeds (now : ℚ) (qid : String) (b : Bool) (dm : DataManagerState)
    (hwf : ∀ row, lookupProgress dm.question_progress qid = some row →
      0 ≤ row.mastery_level) :
    ∃ dm', updateQuestionProgress now qid b dm = some dm' ∧
      ∃ row', lookupProgress dm'.question_progress qid = some row' ∧
        0 ≤ row'.mastery_level ∧
        row'.correct_attempts + row'.wrong_attempts = attemptsOf dm qid + 1 := by
  cases hl : lookupProgress dm.question_progress qid with
  | some row =>
    obtain ⟨nr, heq⟩ := update_some_char now qid b dm row hl (hwf row hl)
    refine ⟨_, heq, ?_⟩
    refine ⟨{ question_id := qid,
              correct_attempts := row.correct_attempts + (if b then 1 else 0),
              wrong_attempts := row.wrong_attempts + (if b then 0 else 1),
              last_attempt := now, next_review := some nr,
              mastery_level := if b then min (row.mastery_level + 1) 5
                               else max (row.mastery_level - 1) 0 }, ?_, ?_, ?_⟩
    · rw [updateTopicsStep_question_progress]
      exact lookupProgress_replaceProgress dm.question_progress qid _ rfl row hl
    · exact newMastery_nonneg _ b (hwf row hl)
    · unfold attemptsOf
      rw [hl]
      cases b <;> simp <;> omega
  | none =>
    obtain ⟨nr, heq⟩ := update_none_char now qid b dm hl
    refine ⟨_, heq, ?_⟩
    refine ⟨{ question_id := qid,
              correct_attempts := if b then 1 else 0,
              wrong_attempts := if b then 0 else 1,
              last_attempt := now, next_review := some nr,
              mastery_level := if b then 1 else 0 }, ?_, ?_, ?_⟩
    · rw [updateTopicsStep_question_progress]
      exact lookupProgress_append_new dm.question_progress qid _ hl rfl
    · cases b <;> simp
    · unfold attemptsOf
      rw [hl]
      cases b <;> simp

/-- Claim C9: a successful submit_answer leaves the current-question
context in place, so a second submit without an intervening next_question
grades the same question again, appends a second entry to the result log,
increments the answered tally again, and performs a second progress
update (the recorded attempt total for the question grows by two). -/
theorem C9_submit_twice (ratio : List Char → List Char → ℚ) (t1 t2 : ℚ)
    (a1 a2 : PyAnswer) (st : EngineState) (sess : Session) (cq : CurrentQuestion)
    (b1 b2 : Bool) (ca1 ca2 : Option (List Char))
    (hs : st.current_session = some sess) (hq : st.current_question = some cq)
    (hg1 : gradeAnswer ratio cq.data a1 = some (b1, ca1))
    (hg2 : gradeAnswer ratio cq.data a2 = some (b2, ca2))
    (hwf : ∀ row, lookupProgress st.dm.question_progress cq.id = some row →
      0 ≤ row.mastery_level) :
    ∃ r1 st1 r2 st2,
      submitAnswer ratio t1 a1 st = some (some r1, st1) ∧
      st1.current_question = st.current_question ∧
      submitAnswer ratio t2 a2 st1 = some (some r2, st2) ∧
      r1.question_id = cq.id ∧ r2.question_id = cq.id ∧
      st2.session_results = st.session_results ++ [r1, r2] ∧
      (∃ sess2, st2.current_session = some sess2 ∧
        sess2.questions_answered = sess.questions_answered + 2) ∧
      attemptsOf st2.dm cq.id = attemptsOf st.dm cq.id + 2 := by
  obtain ⟨dm1, hdm1, row1, hrow1, hrow1m, hrow1att⟩ :=
    update_succeeds t1 cq.id b1 st.dm hwf
  have hsub1 := submitAnswer_char ratio t1 a1 st sess cq b1 ca1 dm1 hs hq hg1 hdm1
  set r1 : ResultRec :=
    { question_id := cq.id, is_correct := b1, user_answer := a1, correct_answer := ca1,
      explanation := cq.data.explanation, source_reference := cq.data.source_reference,
      time_taken := t1 - cq.start_time } with hr1
  set sess1 : Session :=
    { sess with questions_answered := sess.questions_answered + 1,
                correct_answers := sess.correct_answers + (if b1 then 1 else 0) } with hsess1
  set st1 : EngineState :=
    { st with dm := dm1, current_session := some sess1,
              session_results := st.session_results ++ [r1] } with hst1
  have hwf1 : ∀ row, lookupProgress st1.dm.question_progress cq.id = some row →
      0 ≤ row.mastery_level := by
    intro row hrow
    rw [hst1] at hrow
    simp only at hrow
    rw [hrow1] at hrow
    injection hrow with hrow
    subst hrow
    exact hrow1m
  obtain ⟨dm2, hdm2, row2, hrow2, hrow2m, hrow2att⟩ :=
    update_succeeds t2 cq.id b2 st1.dm hwf1
  have hs1 : st1.current_session = some sess1 := rfl
  have hq1 : st1.current_question = some cq := hq
  have hsub2 := submitAnswer_char ratio t2 a2 st1 sess1 cq b2 ca2 dm2 hs1 hq1 hg2 hdm2
  set r2 : ResultRec :=
    { question_id := cq.id, is_correct := b2, user_answer := a2, correct_answer := ca2,
      explanation := cq.data.explanation, source_reference := cq.data.source_reference,
      time_taken := t2 - cq.start_time } with hr2
  refine ⟨r1, st1, r2, _, hsub1, hq1.trans hq.symm, hsub2, rfl, rfl, ?_, ?_, ?_⟩
  · show (st.session_results ++ [r1]) ++ [r2] = st.session_results ++ [r1, r2]
    simp
  · refine ⟨_, rfl, ?_⟩
    show sess1.questions_answered + 1 = sess.questions_answered + 2
    rw [hsess1]
  · have hA1 : attemptsOf st1.dm cq.id = row1.correct_attempts + row1.wrong_attempts := by
      show attemptsOf dm1 cq.id = _
      unfold attemptsOf
      rw [hrow1]
    have hA2 : attemptsOf dm2 cq.id = row2.correct_attempts + row2.wrong_attempts := by
      unfold attemptsOf
      rw [hrow2]
    show attemptsOf dm2 cq.id = attemptsOf st.dm cq.id + 2
    rw [hA2, hrow2att, hA1, hrow1att]
    ring

theorem C9_submit_twice_witness :
    (stW.current_session = some sessW ∧
     stW.current_question = some { id := "q1", data := qMC, start_time := 101 } ∧
     gradeAnswer (fun _ _ => 0) qMC (.intAns 0) = some (true, some "yes".data) ∧
     gradeAnswer (fun _ _ => 0) qMC (.intAns 1) = some (false, some "yes".data)) ∧
    (∃ r1 st1 r2 st2,
      submitAnswer (fun _ _ => 0) 102 (.intAns 0) stW = some (some r1, st1) ∧
      st1.current_question = stW.current_question ∧
      submitAnswer (fun _ _ => 0) 103 (.intAns 1) st1 = some (some r2, st2) ∧
      r1.question_id = "q1" ∧ r2.question_id = "q1" ∧
      st2.session_results = stW.session_results ++ [r1, r2] ∧
      (∃ sess2, st2.current_session = some sess2 ∧
        sess2.questions_answered = sessW.questions_answered + 2) ∧
      attemptsOf st2.dm "q1" = attemptsOf stW.dm "q1" + 2) :=
  ⟨⟨rfl, rfl, by decide, by decide⟩,
   C9_submit_twice (fun _ _ => 0) 102 103 (.intAns 0) (.intAns 1) stW sessW
     { id := "q1", data := qMC, start_time := 101 } true false
     (some "yes".data) (some "yes".data) rfl rfl (by decide) (by decide)
     (by intro row h; simp [stW, lookupProgress] at h)⟩

/-! ## Claim C6: weak-spot ordering -/

theorem lex_key_le {α : Type} (key : α → ℚ) (tag : α → ℕ) (a b : α)
    (h : key a < key b ∨ (key a = key b ∧ tag a < tag b)) : key a ≤ key b := by
  rcases h with h | ⟨h, _⟩
  · exact le_of_lt h
  · exact le_of_eq h

theorem insertLe_pairwise_lex {α : Type} (key : α → ℚ) (tag : α → ℕ) (x : α) :
    ∀ m : List α,
      m.Pairwise (fun a b => key a < key b ∨ (key a = key b ∧ tag a < tag b)) →
      (∀ y ∈ m, tag x < tag y) →
      (insertLe (fun a b => decide (key a ≤ key b)) x m).Pairwise
        (fun a b => key a < key b ∨ (key a = key b ∧ tag a < tag b)) := by
  intro m
  induction m with
  | nil =>
    intro _ _
    simp [insertLe]
  | cons y ys ih =>
    intro hp htag
    rw [List.pairwise_cons] at hp
    by_cases hxy : key x ≤ key y
    · rw [show insertLe (fun a b => decide (key a ≤ key b)) x (y :: ys) = x :: y :: ys by
        simp [insertLe, hxy]]
      rw [List.pairwise_cons]
      refine ⟨?_, List.pairwise_cons.mpr hp⟩
      intro z hz
      rcases List.mem_cons.mp hz with he | hm
      · rw [he]
        rcases lt_or_eq_of_le hxy with h | h
        · exact Or.inl h
        · exact Or.inr ⟨h, htag _ (List.mem_cons_self y ys)⟩
      · have hyz := hp.1 z hm
        have hkxz : key x ≤ key z := le_trans hxy (lex_key_le key tag _ _ hyz)
        rcases lt_or_eq_of_le hkxz with h | h
        · exact Or.inl h
        · exact Or.inr ⟨h, htag _ (List.mem_cons_of_mem y hm)⟩
    · have hlt : key y < key x := not_le.mp hxy
      rw [show insertLe (fun a b => decide (key a ≤ key b)) x (y :: ys) =
          y :: insertLe (fun a b => decide (key a ≤ key b)) x ys by
        simp [insertLe, hxy]]
      rw [List.pairwise_cons]
      constructor
      · intro z hz
        rw [(insertLe_perm _ x ys).mem_iff] at hz
        rcases List.mem_cons.mp hz with he | hm
        · subst he
          exact Or.inl hlt
        · exact hp.1 z hm
      · exact ih hp.2 (fun y2 hy2 => htag _ (List.mem_cons_of_mem _ hy2))

theorem sortByLe_pairwise_lex {α : Type} (key : α → ℚ) (tag : α → ℕ) :
    ∀ l : List α, l.Pairwise (fun a b => tag a < tag b) →
      (sortByLe (fun a b => decide (key a ≤ key b)) l).Pairwise
        (fun a b => key a < key b ∨ (key a = key b ∧ tag a < tag b)) := by
  intro l
  induction l with
  | nil =>
    intro _
    simp [sortByLe]
  | cons x l ih =>
    intro hp
    rw [List.pairwise_cons] at hp
    have htag : ∀ y ∈ sortByLe (fun a b => decide (key a ≤ key b)) l, tag x < tag y :=
      fun y hy => hp.1 y ((sortByLe_perm _ l).mem_iff.mp hy)
    exact insertLe_pairwise_lex key tag x _ (ih hp.2) htag

/-- Claim C6: the weak-spot policy scores every candidate with its success
rate percentage (or the neutral 50 when it has no recorded attempts),
stable-sorts ascending by score - ties keep the original filtered-pool
order - and returns the identifiers of the first min(P, count) entries:
the selection is a prefix of a permutation of the scored pool that is
strictly ordered by (score, original position). -/
theorem C6_weak_spot (progress : List ProgressRow) (filtered : List (String × Question))
    (count : Nat) (hnd : (filtered.map (fun p => p.1)).Nodup) :
    (∃ full : List (String × ℚ),
      (filtered.map (fun p => (p.1, questionScore progress p.1))).Perm full ∧
      full.Pairwise (fun a b => a.2 < b.2 ∨ (a.2 = b.2 ∧
        (filtered.map (fun p => p.1)).indexOf a.1 <
          (filtered.map (fun p => p.1)).indexOf b.1)) ∧
      selectWeakSpotQuestions progress filtered count =
        (full.take (min count filtered.length)).map (fun p => p.1)) ∧
    (∀ qid row, lookupProgress progress qid = some row →
      row.correct_attempts + row.wrong_attempts ≠ 0 →
      questionScore progress qid = (row.correct_attempts : ℚ) /
        ((row.correct_attempts : ℚ) + (row.wrong_attempts : ℚ)) * 100) ∧
    (∀ qid row, lookupProgress progress qid = some row →
      row.correct_attempts + row.wrong_attempts = 0 →
      questionScore progress qid = 50) ∧
    (∀ qid, lookupProgress progress qid = none → questionScore progress qid = 50) := by
  refine ⟨?_, ?_, ?_, ?_⟩
  · have base := nodup_pairwise_indexOf (filtered.map (fun p => p.1)) hnd
    rw [List.pairwise_map] at base
    have hpair : (filtered.map (fun p => (p.1, questionScore progress p.1))).Pairwise
        (fun a b => (filtered.map (fun p => p.1)).indexOf a.1 <
          (filtered.map (fun p => p.1)).indexOf b.1) := by
      rw [List.pairwise_map]
      exact base
    have hsorted := sortByLe_pairwise_lex (fun p : String × ℚ => p.2)
      (fun p => (filtered.map (fun p => p.1)).indexOf p.1)
      (filtered.map (fun p => (p.1, questionScore progress p.1))) hpair
    have hlen : (sortByLe (fun a b => decide (a.2 ≤ b.2))
        (filtered.map (fun p => (p.1, questionScore progress p.1)))).length =
        filtered.length := by
      rw [(sortByLe_perm _ _).length_eq, List.length_map]
    refine ⟨sortByLe (fun a b => decide (a.2 ≤ b.2))
      (filtered.map (fun p => (p.1, questionScore progress p.1))),
      (sortByLe_perm _ _).symm, hsorted, ?_⟩
    unfold selectWeakSpotQuestions
    simp only []
    rw [hlen]
  · intro qid row h hne
    simp [questionScore, h, hne]
  · intro qid row h hz
    simp [questionScore, h, hz]
  · intro qid h
    simp [questionScore, h]

theorem sbeq_aa : (("a" : String) == "a") = true := by decide

theorem sbeq_ab : (("a" : String) == "b") = false := by decide

theorem sbeq_ac : (("a" : String) == "c") = false := by decide

theorem sbeq_cb : (("c" : String) == "b") = false := by decide

theorem sbeq_cc : (("c" : String) == "c") = true := by decide

theorem C6_weak_spot_witness :
    (poolC6.map (fun p => p.1)).Nodup ∧
    ((∃ full : List (String × ℚ),
      (poolC6.map (fun p => (p.1, questionScore progC6 p.1))).Perm full ∧
      full.Pairwise (fun a b => a.2 < b.2 ∨ (a.2 = b.2 ∧
        (poolC6.map (fun p => p.1)).indexOf a.1 <
          (poolC6.map (fun p => p.1)).indexOf b.1)) ∧
      selectWeakSpotQuestions progC6 poolC6 3 =
        (full.take (min 3 poolC6.length)).map (fun p => p.1)) ∧
    (∀ qid row, lookupProgress progC6 qid = some row →
      row.correct_attempts + row.wrong_attempts ≠ 0 →
      questionScore progC6 qid = (row.correct_attempts : ℚ) /
        ((row.correct_attempts : ℚ) + (row.wrong_attempts : ℚ)) * 100) ∧
    (∀ qid row, lookupProgress progC6 qid = some row →
      row.correct_attempts + row.wrong_attempts = 0 →
      questionScore progC6 qid = 50) ∧
    (∀ qid, lookupProgress progC6 qid = none → questionScore progC6 qid = 50)) ∧
    selectWeakSpotQuestions progC6 poolC6 3 = ["a", "b", "c"] := by
  refine ⟨by decide, C6_weak_spot progC6 poolC6 3 (by decide), ?_⟩
  have ha : questionScore progC6 "a" = 20 := by
    norm_num [questionScore, lookupProgress, progC6, List.find?, sbeq_aa]
  have hb : questionScore progC6 "b" = 50 := by
    norm_num [questionScore, lookupProgress, progC6, List.find?, sbeq_ab, sbeq_cb]
  have hc : questionScore progC6 "c" = 80 := by
    norm_num [questionScore, lookupProgress, progC6, List.find?, sbeq_ac, sbeq_cc]
  simp only [selectWeakSpotQuestions, poolC6, List.map_cons, List.map_nil, ha, hb, hc]
  norm_num [sortByLe, insertLe]

/-! ## Claim C3: the four selection policies -/

theorem perm_take_props {α : Type} (l fkeys : List α) (hperm : l.Perm fkeys)
    (hnd : fkeys.Nodup) (count : Nat) :
    ((l.take (min count l.length)).length = min count fkeys.length) ∧
    (l.take (min count l.length)).Nodup ∧
    (∀ q ∈ l.take (min count l.length), q ∈ fkeys) := by
  have hlen : l.length = fkeys.length := hperm.length_eq
  have hlnd : l.Nodup := hperm.symm.nodup hnd
  refine ⟨?_, ?_, ?_⟩
  · rw [List.length_take, hlen]
    omega
  · exact (List.take_sublist _ _).nodup hlnd
  · intro q hq
    exact hperm.subset ((List.take_sublist _ _).subset hq)

theorem selectNormal_props (rs : List Nat) (filtered : List (String × Question))
    (count : Nat) (hnd : (filtered.map (fun p => p.1)).Nodup) :
    (selectNormalQuestions rs filtered count).length = min count filtered.length ∧
    (selectNormalQuestions rs filtered count).Nodup ∧
    (∀ q ∈ selectNormalQuestions rs filtered count, q ∈ filtered.map (fun p => p.1)) := by
  have h := perm_take_props (pyShuffle rs (filtered.map (fun p => p.1)))
    (filtered.map (fun p => p.1)) (pyShuffle_perm _ _) hnd count
  have hL : (filtered.map (fun p => p.1)).length = filtered.length := List.length_map _ _
  unfold selectNormalQuestions
  simp only []
  rw [hL] at h
  exact h

theorem selectWeakSpot_props (progress : List ProgressRow)
    (filtered : List (String × Question)) (count : Nat)
    (hnd : (filtered.map (fun p => p.1)).Nodup) :
    (selectWeakSpotQuestions progress filtered count).length = min count filtered.length ∧
    (selectWeakSpotQuestions progress filtered count).Nodup ∧
    (∀ q ∈ selectWeakSpotQuestions progress filtered count,
      q ∈ filtered.map (fun p => p.1)) := by
  have hperm : (sortByLe (fun a b => decide (a.2 ≤ b.2))
      (filtered.map (fun p => (p.1, questionScore progress p.1)))).Perm
      (filtered.map (fun p => (p.1, questionScore progress p.1))) := sortByLe_perm _ _
  have hpermids : ((sortByLe (fun a b => decide (a.2 ≤ b.2))
      (filtered.map (fun p => (p.1, questionScore progress p.1)))).map
        (fun p => p.1)).Perm (filtered.map (fun p => p.1)) := by
    have h2 := hperm.map (fun p : String × ℚ => p.1)
    rw [List.map_map] at h2
    exact h2
  have hlen : (sortByLe (fun a b => decide (a.2 ≤ b.2))
      (filtered.map (fun p => (p.1, questionScore progress p.1)))).length =
      filtered.length := by
    rw [hperm.length_eq, List.length_map]
  have hmapnd : ((sortByLe (fun a b => decide (a.2 ≤ b.2))
      (filtered.map (fun p => (p.1, questionScore progress p.1)))).map
        (fun p => p.1)).Nodup := hpermids.symm.nodup hnd
  unfold selectWeakSpotQuestions
  simp only []
  refine ⟨?_, ?_, ?_⟩
  · rw [List.length_map, List.length_take, hlen]
    omega
  · exact ((List.take_sublist _ _).map (fun p : String × ℚ => p.1)).nodup hmapnd
  · intro q hq
    exact hpermids.subset (((List.take_sublist _ _).map (fun p : String × ℚ => p.1)).subset hq)

theorem getQuestionsForReview_nodup (now : ℚ) (dm : DataManagerState) (limit : Nat)
    (hpr : (dm.question_progress.map (fun r => r.question_id)).Nodup)
    (hcat : (dm.questions.map (fun p => p.1)).Nodup) :
    (getQuestionsForReview now dm limit).Nodup := by
  have hsortperm : (sortByLe reviewLe (dm.question_progress.filter (dueRow now))).Perm
      (dm.question_progress.filter (dueRow now)) := sortByLe_perm _ _
  have hfiltnd : ((dm.question_progress.filter (dueRow now)).map
      (fun r => r.question_id)).Nodup :=
    ((List.filter_sublist _).map _).nodup hpr
  have hsortnd : ((sortByLe reviewLe (dm.question_progress.filter (dueRow now))).map
      (fun r => r.question_id)).Nodup :=
    (hsortperm.map _).symm.nodup hfiltnd
  have hqnd : (((sortByLe reviewLe (dm.question_progress.filter (dueRow now))).take
      limit).map (fun r => r.question_id)).Nodup :=
    ((List.take_sublist _ _).map _).nodup hsortnd
  unfold getQuestionsForReview
  simp only []
  split
  · refine List.Nodup.append hqnd ?_ ?_
    · exact (List.take_sublist _ _).nodup (hcat.filter _)
    · intro x hx1 hx2
      have hx2' := (List.take_sublist _ _).subset hx2
      have hx3 := List.mem_filter.mp hx2'
      exact (of_decide_eq_true hx3.2) (List.mem_append_left _ hx1)
  · exact hqnd

theorem selectSpacedRep_props (rs1 rs2 : List Nat) (now : ℚ) (dm : DataManagerState)
    (filtered : List (String × Question)) (count : Nat)
    (hnd : (filtered.map (fun p => p.1)).Nodup)
    (hpr : (dm.question_progress.map (fun r => r.question_id)).Nodup)
    (hcat : (dm.questions.map (fun p => p.1)).Nodup) :
    (selectSpacedRepetitionQuestions rs1 rs2 now dm filtered count).length =
      min count filtered.length ∧
    (selectSpacedRepetitionQuestions rs1 rs2 now dm filtered count).Nodup ∧
    (∀ q ∈ selectSpacedRepetitionQuestions rs1 rs2 now dm filtered count,
      q ∈ filtered.map (fun p => p.1)) := by
  have hPlen : (filtered.map (fun p => p.1)).length = filtered.length := List.length_map _ _
  unfold selectSpacedRepetitionQuestions
  simp only []
  set fkeys := filtered.map (fun p => p.1) with hfk
  set due := getQuestionsForReview now dm (count * 2) with hdue
  set e := due.filter (fun q => decide (q ∈ fkeys)) with he
  have hdnd : due.Nodup := getQuestionsForReview_nodup now dm (count * 2) hpr hcat
  have hend : e.Nodup := (List.filter_sublist _).nodup hdnd
  have hesub : ∀ q ∈ e, q ∈ fkeys := by
    intro q hq
    exact of_decide_eq_true (List.mem_filter.mp hq).2
  have heP : e.length ≤ fkeys.length := nodup_subset_length_le hend hesub
  by_cases hcase : e.length < count
  · rw [if_pos hcase]
    set remaining := fkeys.filter (fun q => decide (q ∉ e)) with hrem
    have hrlen : remaining.length = fkeys.length - e.length :=
      length_filter_not_mem fkeys e hnd hend hesub
    have hsperm : (pyShuffle rs1 remaining).Perm remaining := pyShuffle_perm _ _
    have hrnd : remaining.Nodup := hnd.filter _
    have hslen : (pySample rs1 (min (count - e.length) remaining.length) remaining).length =
        min (count - e.length) remaining.length := by
      unfold pySample
      rw [List.length_take, hsperm.length_eq]
      omega
    have hsnd : (pySample rs1 (min (count - e.length) remaining.length) remaining).Nodup := by
      unfold pySample
      exact (List.take_sublist _ _).nodup (hsperm.symm.nodup hrnd)
    have hssub : ∀ q ∈ pySample rs1 (min (count - e.length) remaining.length) remaining,
        q ∈ remaining := by
      unfold pySample
      intro q hq
      exact hsperm.subset ((List.take_sublist _ _).subset hq)
    have he'nd : (e ++ pySample rs1 (min (count - e.length) remaining.length)
        remaining).Nodup := by
      refine hend.append hsnd ?_
      intro x hx1 hx2
      exact (of_decide_eq_true (List.mem_filter.mp (hssub x hx2)).2) hx1
    have he'sub : ∀ q ∈ e ++ pySample rs1 (min (count - e.length) remaining.length)
        remaining, q ∈ fkeys := by
      intro q hq
      rcases List.mem_append.mp hq with hm | hm
      · exact hesub q hm
      · exact (List.mem_filter.mp (hssub q hm)).1
    have hps := perm_take_props
      (pyShuffle rs2 (e ++ pySample rs1 (min (count - e.length) remaining.length) remaining))
      (e ++ pySample rs1 (min (count - e.length) remaining.length) remaining)
      (pyShuffle_perm _ _) he'nd count
    refine ⟨?_, hps.2.1, ?_⟩
    · rw [hps.1, List.length_append, hslen, hrlen, ← hPlen]
      omega
    · intro q hq
      exact he'sub q (hps.2.2 q hq)
  · rw [if_neg hcase]
    have hps := perm_take_props (pyShuffle rs2 e) e (pyShuffle_perm _ _) hend count
    refine ⟨?_, hps.2.1, ?_⟩
    · rw [hps.1, ← hPlen]
      omega
    · intro q hq
      exact hesub q (hps.2.2 q hq)

theorem groupGet_none_iff (gs : List (String × List String)) (t : String) :
    groupGet gs t = none ↔ t ∉ gs.map (fun p => p.1) := by
  unfold groupGet
  rw [Option.map_eq_none']
  constructor
  · intro h hmem
    obtain ⟨p, hp, hpe⟩ := List.mem_map.mp hmem
    have := List.find?_eq_none.mp h p hp
    exact this (by simp [hpe])
  · intro h
    rw [List.find?_eq_none]
    intro p hp hb
    exact h (List.mem_map.mpr ⟨p, hp, by simpa using hb⟩)

theorem groupGet_of_mem_nodup (gs : List (String × List String)) (t : String)
    (g : List String) (hnd : (gs.map (fun p => p.1)).Nodup) (hmem : (t, g) ∈ gs) :
    groupGet gs t = some g := by
  induction gs with
  | nil => simp at hmem
  | cons p gs ih =>
    rw [List.map_cons, List.nodup_cons] at hnd
    rcases List.mem_cons.mp hmem with he | hm
    · rw [← he]
      simp [groupGet, List.find?]
    · have hpt : (p.1 == t) = false := by
        rw [beq_eq_false_iff_ne]
        intro he2
        exact hnd.1 (he2 ▸ List.mem_map.mpr ⟨(t, g), hm, rfl⟩)
      unfold groupGet at ih ⊢
      simp only [List.find?, hpt]
      exact ih hnd.2 hm

theorem groupSet_keys (gs : List (String × List String)) (t : String) (v : List String) :
    (groupSet gs t v).map (fun p => p.1) = gs.map (fun p => p.1) := by
  unfold groupSet
  rw [List.map_map]
  apply List.map_congr_left
  intro p hp
  by_cases h : (p.1 == t) = true
  · have hpt : p.1 = t := by simpa using h
    simp [h, hpt]
  · have hne : ¬ p.1 = t := by simpa using h
    simp [h, hne]

theorem groupSet_get_other (gs : List (String × List String)) (t t' : String)
    (v : List String) (hne : t' ≠ t) :
    groupGet (groupSet gs t v) t' = groupGet gs t' := by
  have htv : ((t : String) == t') = false := by
    rw [beq_eq_false_iff_ne]
    exact fun hh => hne hh.symm
  unfold groupGet groupSet
  induction gs with
  | nil => rfl
  | cons p gs ih =>
    by_cases h : (p.1 == t) = true
    · have hpt : p.1 = t := by simpa using h
      have h2 : (p.1 == t') = false := by rw [hpt]; exact htv
      rw [List.map_cons, if_pos h]
      simp only [List.find?, htv, h2]
      exact ih
    · rw [List.map_cons, if_neg h]
      by_cases h2 : (p.1 == t') = true
      · simp only [List.find?, h2]
      · have h2f : (p.1 == t') = false := by simpa using h2
        simp only [List.find?, h2f]
        exact ih

theorem groupSet_get_self (gs : List (String × List String)) (t : String)
    (g v : List String) (hget : groupGet gs t = some g) :
    groupGet (groupSet gs t v) t = some v := by
  unfold groupGet at hget ⊢
  unfold groupSet
  induction gs with
  | nil => simp at hget
  | cons p gs ih =>
    by_cases h : (p.1 == t) = true
    · rw [List.map_cons, if_pos h]
      simp [List.find?]
    · have hf : (p.1 == t) = false := by simpa using h
      rw [List.map_cons, if_neg h]
      simp only [List.find?, hf] at hget ⊢
      exact ih hget

theorem groupSet_not_mem (gs : List (String × List String)) (t : String) (v : List String)
    (h : t ∉ gs.map (fun p => p.1)) : groupSet gs t v = gs := by
  unfold groupSet
  induction gs with
  | nil => rfl
  | cons p gs ih =>
    rw [List.map_cons, List.mem_cons] at h
    push_neg at h
    have hne : ¬ p.1 = t := fun hh => h.1 hh.symm
    rw [List.map_cons, if_neg (by simp [hne])]
    rw [ih h.2]

theorem groupsTotalSize_set (gs : List (String × List String)) (t : String)
    (g v : List String) (hnd : (gs.map (fun p => p.1)).Nodup)
    (hget : groupGet gs t = some g) :
    groupsTotalSize (groupSet gs t v) + g.length = groupsTotalSize gs + v.length := by
  induction gs with
  | nil => simp [groupGet] at hget
  | cons p gs ih =>
    rw [List.map_cons, List.nodup_cons] at hnd
    by_cases h : (p.1 == t) = true
    · have hpt : p.1 = t := by simpa using h
      have hgp : g = p.2 := by
        unfold groupGet at hget
        simp only [List.find?, h] at hget
        simpa using hget.symm
      have hset : groupSet (p :: gs) t v = (t, v) :: gs := by
        have hnm : t ∉ gs.map (fun p => p.1) := hpt ▸ hnd.1
        have h2 := groupSet_not_mem gs t v hnm
        unfold groupSet at h2 ⊢
        rw [List.map_cons, if_pos h, h2]
      rw [hset]
      subst hgp
      unfold groupsTotalSize
      simp only [List.map_cons, List.sum_cons]
      omega
    · have hf : (p.1 == t) = false := by simpa using h
      have hget2 : groupGet gs t = some g := by
        unfold groupGet at hget ⊢
        simp only [List.find?, hf] at hget
        exact hget
      have hset : groupSet (p :: gs) t v = p :: groupSet gs t v := by
        unfold groupSet
        rw [List.map_cons, if_neg h]
      rw [hset]
      have h3 := ih hnd.2 hget2
      unfold groupsTotalSize at h3 ⊢
      simp only [List.map_cons, List.sum_cons]
      omega

theorem allGroupsEmpty_iff (gs : List (String × List String)) :
    allGroupsEmpty gs = true ↔ ∀ p ∈ gs, p.2 = [] := by
  unfold allGroupsEmpty
  rw [List.all_eq_true]
  constructor
  · intro h p hp
    exact List.isEmpty_iff.mp (h p hp)
  · intro h p hp
    exact List.isEmpty_iff.mpr (h p hp)

theorem groupGet_some_mem (gs : List (String × List String)) (t : String)
    (g : List String) (h : groupGet gs t = some g) : (t, g) ∈ gs := by
  unfold groupGet at h
  cases hf : gs.find? (fun p => p.1 == t) with
  | none => rw [hf] at h; simp at h
  | some p =>
    rw [hf] at h
    have hp1 : p.1 = t := by simpa using List.find?_some hf
    have hp2 : p.2 = g := by simpa using h
    have hpm := List.mem_of_find?_eq_some hf
    have : p = (t, g) := by
      rw [← hp1, ← hp2]
    rw [← this]
    exact hpm


theorem examFor_spec (count : Nat) (fkeys : List String) :
    ∀ (ts : List String) (st : ExamPass), ExamInv fkeys st → st.broke = false →
    st.sel.length < count →
    ExamInv fkeys (examFor count ts st) ∧
    (∀ x ∈ (examFor count ts st).tl, x ∈ st.tl) ∧
    ((examFor count ts st).gs.map (fun p => p.1) = st.gs.map (fun p => p.1)) ∧
    groupsTotalSize (examFor count ts st).gs ≤ groupsTotalSize st.gs ∧
    ((examFor count ts st).broke = true → (examFor count ts st).sel.length = count) ∧
    ((examFor count ts st).broke = false → (examFor count ts st).sel.length < count) ∧
    (∀ t', groupGet st.gs t' = some [] → groupGet (examFor count ts st).gs t' = some []) ∧
    ((examFor count ts st).broke = false →
      groupsTotalSize (examFor count ts st).gs = groupsTotalSize st.gs →
      ∀ t' ∈ ts, ∀ g, groupGet (examFor count ts st).gs t' = some g → g = []) := by
  intro ts
  induction ts with
  | nil =>
    intro st hInv hbroke hsel
    refine ⟨hInv, fun x hx => hx, rfl, le_refl _, ?_, fun _ => hsel, fun t' h => h, ?_⟩
    · intro hb
      have hb2 : st.broke = true := hb
      rw [hbroke] at hb2
      exact Bool.noConfusion hb2
    · exact fun _ _ t' ht' => absurd ht' (List.not_mem_nil t')
  | cons t ts ih =>
    intro st hInv hbroke hsel
    obtain ⟨hI1, hI2, hI3, hI4, hI5⟩ := hInv
    cases hgt : groupGet st.gs t with
    | none =>
      simp only [examFor, hgt]
      have hInv1 : ExamInv fkeys { st with tl := st.tl.erase t } := by
        refine ⟨hI1, hI2, hI3, hI4, ?_⟩
        intro p hp hptl
        by_cases hpt : p.1 = t
        · exfalso
          have hkm : t ∈ st.gs.map (fun p => p.1) := List.mem_map.mpr ⟨p, hp, hpt⟩
          exact (groupGet_none_iff _ _).mp hgt hkm
        · apply hI5 p hp
          intro hmem
          exact hptl ((List.mem_erase_of_ne hpt).mpr hmem)
      obtain ⟨ha, hb, hc, hd, he, hf, hg, hh⟩ :=
        ih { st with tl := st.tl.erase t } hInv1 hbroke hsel
      refine ⟨ha, ?_, hc, hd, he, hf, ?_, ?_⟩
      · intro x hx
        exact List.mem_of_mem_erase (hb x hx)
      · intro t' h
        exact hg t' h
      · intro hbf hsz t' ht' g hgg
        rcases List.mem_cons.mp ht' with he' | hm
        · subst he'
          have hkn : t' ∉ (examFor count ts { st with tl := st.tl.erase t' }).gs.map
              (fun p => p.1) := by
            rw [hc]
            exact (groupGet_none_iff _ _).mp hgt
          have hnone := (groupGet_none_iff _ _).mpr hkn
          rw [hnone] at hgg
          exact Option.noConfusion hgg
        · exact hh hbf hsz t' hm g hgg
    | some g =>
      cases g with
      | nil =>
        simp only [examFor, hgt]
        have hInv1 : ExamInv fkeys { st with tl := st.tl.erase t } := by
          refine ⟨hI1, hI2, hI3, hI4, ?_⟩
          intro p hp hptl
          by_cases hpt : p.1 = t
          · have hpg : groupGet st.gs p.1 = some p.2 :=
              groupGet_of_mem_nodup st.gs p.1 p.2 hI4 hp
            rw [hpt, hgt] at hpg
            exact (Option.some.inj hpg).symm
          · apply hI5 p hp
            intro hmem
            exact hptl ((List.mem_erase_of_ne hpt).mpr hmem)
        obtain ⟨ha, hb, hc, hd, he, hf, hg, hh⟩ :=
          ih { st with tl := st.tl.erase t } hInv1 hbroke hsel
        refine ⟨ha, ?_, hc, hd, he, hf, ?_, ?_⟩
        · intro x hx
          exact List.mem_of_mem_erase (hb x hx)
        · intro t' h
          exact hg t' h
        · intro hbf hsz t' ht' g hgg
          rcases List.mem_cons.mp ht' with he' | hm
          · subst he'
            have h2 := hg t' hgt
            rw [h2] at hgg
            exact (Option.some.inj hgg).symm
          · exact hh hbf hsz t' hm g hgg
      | cons q0 g0 =>
        simp only [examFor, hgt]
        have hgne : q0 :: g0 ≠ ([] : List String) := by simp
        have hqmem : (q0 :: g0).getD (st.rs.headD 0 % (q0 :: g0).length) "" ∈ q0 :: g0 :=
          getD_mod_mem _ _ _ hgne
        have htg : (t, q0 :: g0) ∈ st.gs := groupGet_some_mem _ _ _ hgt
        have hgsub : ∀ x ∈ q0 :: g0, x ∈ fkeys := hI3 (t, q0 :: g0) htg
        have herlen :
            ((q0 :: g0).erase ((q0 :: g0).getD (st.rs.headD 0 % (q0 :: g0).length) "")).length
            + 1 = (q0 :: g0).length := by
          rw [List.length_erase_of_mem hqmem]
          have h0 : (q0 :: g0).length = g0.length + 1 := rfl
          omega
        have hsize : groupsTotalSize (groupSet st.gs t
              ((q0 :: g0).erase ((q0 :: g0).getD (st.rs.headD 0 % (q0 :: g0).length) "")))
            + (q0 :: g0).length = groupsTotalSize st.gs
            + ((q0 :: g0).erase
                ((q0 :: g0).getD (st.rs.headD 0 % (q0 :: g0).length) "")).length :=
          groupsTotalSize_set st.gs t _ _ hI4 hgt
        have hsizelt : groupsTotalSize (groupSet st.gs t
              ((q0 :: g0).erase ((q0 :: g0).getD (st.rs.headD 0 % (q0 :: g0).length) "")))
            < groupsTotalSize st.gs := by omega
        have hkeys : (groupSet st.gs t
              ((q0 :: g0).erase ((q0 :: g0).getD (st.rs.headD 0 % (q0 :: g0).length) ""))).map
              (fun p => p.1) = st.gs.map (fun p => p.1) := groupSet_keys _ _ _
        have hkeysnd : ((groupSet st.gs t
              ((q0 :: g0).erase ((q0 :: g0).getD (st.rs.headD 0 % (q0 :: g0).length) ""))).map
              (fun p => p.1)).Nodup := by
          rw [hkeys]
          exact hI4
        have hI3' : ∀ p ∈ groupSet st.gs t
              ((q0 :: g0).erase ((q0 :: g0).getD (st.rs.headD 0 % (q0 :: g0).length) "")),
            ∀ x ∈ p.2, x ∈ fkeys := by
          intro p hp x hx
          unfold groupSet at hp
          obtain ⟨p0, hp0, hpe⟩ := List.mem_map.mp hp
          by_cases hbq : (p0.1 == t) = true
          · rw [if_pos hbq] at hpe
            rw [← hpe] at hx
            exact hgsub x (List.mem_of_mem_erase hx)
          · rw [if_neg hbq] at hpe
            rw [← hpe] at hx
            exact hI3 p0 hp0 x hx
        have hI5' : ∀ p ∈ groupSet st.gs t
              ((q0 :: g0).erase ((q0 :: g0).getD (st.rs.headD 0 % (q0 :: g0).length) "")),
            p.1 ∉ st.tl → p.2 = [] := by
          intro p hp hptl
          unfold groupSet at hp
          obtain ⟨p0, hp0, hpe⟩ := List.mem_map.mp hp
          by_cases hbq : (p0.1 == t) = true
          · rw [if_pos hbq] at hpe
            have htin : t ∈ st.tl := by
              by_contra htn
              have h0 := hI5 (t, q0 :: g0) htg htn
              simp at h0
            rw [← hpe] at hptl
            exact absurd htin hptl
          · rw [if_neg hbq] at hpe
            rw [← hpe] at hptl ⊢
            exact hI5 p0 hp0 hptl
        by_cases hmem : (q0 :: g0).getD (st.rs.headD 0 % (q0 :: g0).length) "" ∈ st.sel
        · have hse : (if decide ((q0 :: g0).getD (st.rs.headD 0 % (q0 :: g0).length) ""
                ∈ st.sel) = true then st.sel
              else st.sel ++ [(q0 :: g0).getD (st.rs.headD 0 % (q0 :: g0).length) ""])
              = st.sel := by
            rw [if_pos (decide_eq_true hmem)]
          rw [hse]
          have hbr : ¬ count ≤ st.sel.length := by omega
          rw [if_neg hbr]
          obtain ⟨ha, hb, hc, hd, he, hf, hg, hh⟩ :=
            ih { st with sel := st.sel, gs := groupSet st.gs t ((q0 :: g0).erase ((q0 :: g0).getD (st.rs.headD 0 % (q0 :: g0).length) "")), rs := st.rs.tail } ⟨hI1, hI2, hI3', hkeysnd, hI5'⟩ hbroke hsel
          refine ⟨ha, ?_, hc.trans hkeys, le_trans hd (Nat.le_of_lt hsizelt), he, hf, ?_, ?_⟩
          · intro x hx
            exact hb x hx
          · intro t' h
            have hne : t' ≠ t := by
              intro he2
              rw [he2, hgt] at h
              simp at h
            have h2 : groupGet (groupSet st.gs t ((q0 :: g0).erase
                ((q0 :: g0).getD (st.rs.headD 0 % (q0 :: g0).length) ""))) t' = some [] := by
              rw [groupSet_get_other st.gs t t' _ hne]
              exact h
            exact hg t' h2
          · intro hbf hsz t' ht' g hgg
            exfalso
            have hlt2 : groupsTotalSize (examFor count ts { st with sel := st.sel, gs := groupSet st.gs t ((q0 :: g0).erase ((q0 :: g0).getD (st.rs.headD 0 % (q0 :: g0).length) "")), rs := st.rs.tail }).gs < groupsTotalSize st.gs :=
              lt_of_le_of_lt hd hsizelt
            have hsz2 : groupsTotalSize (examFor count ts { st with sel := st.sel, gs := groupSet st.gs t ((q0 :: g0).erase ((q0 :: g0).getD (st.rs.headD 0 % (q0 :: g0).length) "")), rs := st.rs.tail }).gs = groupsTotalSize st.gs := hsz
            omega
        · have hse : (if decide ((q0 :: g0).getD (st.rs.headD 0 % (q0 :: g0).length) ""
                ∈ st.sel) = true then st.sel
              else st.sel ++ [(q0 :: g0).getD (st.rs.headD 0 % (q0 :: g0).length) ""])
              = st.sel ++ [(q0 :: g0).getD (st.rs.headD 0 % (q0 :: g0).length) ""] := by
            rw [if_neg (fun hc => hmem (of_decide_eq_true hc))]
          rw [hse]
          have hselnd : (st.sel ++
              [(q0 :: g0).getD (st.rs.headD 0 % (q0 :: g0).length) ""]).Nodup := by
            refine hI1.append (List.nodup_singleton _) ?_
            intro a ha1 ha2
            rw [List.mem_singleton] at ha2
            rw [ha2] at ha1
            exact hmem ha1
          have hselsub : ∀ q ∈ st.sel ++
              [(q0 :: g0).getD (st.rs.headD 0 % (q0 :: g0).length) ""], q ∈ fkeys := by
            intro q hq
            rcases List.mem_append.mp hq with hm | hm
            · exact hI2 q hm
            · rw [List.mem_singleton] at hm
              rw [hm]
              exact hgsub _ hqmem
          have hsellen : (st.sel ++
              [(q0 :: g0).getD (st.rs.headD 0 % (q0 :: g0).length) ""]).length
              = st.sel.length + 1 := by
            rw [List.length_append]
            rfl
          by_cases hbr : count ≤ (st.sel ++
              [(q0 :: g0).getD (st.rs.headD 0 % (q0 :: g0).length) ""]).length
          · rw [if_pos hbr]
            refine ⟨⟨hselnd, hselsub, hI3', hkeysnd, hI5'⟩, fun x hx => hx, hkeys,
              Nat.le_of_lt hsizelt, ?_, ?_, ?_, ?_⟩
            · intro _
              show (st.sel ++
                [(q0 :: g0).getD (st.rs.headD 0 % (q0 :: g0).length) ""]).length = count
              omega
            · intro hbf
              exact Bool.noConfusion (hbf : true = false)
            · intro t' h
              have hne : t' ≠ t := by
                intro he2
                rw [he2, hgt] at h
                simp at h
              show groupGet (groupSet st.gs t ((q0 :: g0).erase
                  ((q0 :: g0).getD (st.rs.headD 0 % (q0 :: g0).length) ""))) t' = some []
              rw [groupSet_get_other st.gs t t' _ hne]
              exact h
            · intro hbf
              exact Bool.noConfusion (hbf : true = false)
          · rw [if_neg hbr]
            have hlt' : (st.sel ++
                [(q0 :: g0).getD (st.rs.headD 0 % (q0 :: g0).length) ""]).length < count := by
              omega
            obtain ⟨ha, hb, hc, hd, he, hf, hg, hh⟩ :=
              ih { st with sel := st.sel ++ [(q0 :: g0).getD (st.rs.headD 0 % (q0 :: g0).length) ""], gs := groupSet st.gs t ((q0 :: g0).erase ((q0 :: g0).getD (st.rs.headD 0 % (q0 :: g0).length) "")), rs := st.rs.tail } ⟨hselnd, hselsub, hI3', hkeysnd, hI5'⟩ hbroke hlt'
            refine ⟨ha, ?_, hc.trans hkeys, le_trans hd (Nat.le_of_lt hsizelt), he, hf, ?_, ?_⟩
            · intro x hx
              exact hb x hx
            · intro t' h
              have hne : t' ≠ t := by
                intro he2
                rw [he2, hgt] at h
                simp at h
              have h2 : groupGet (groupSet st.gs t ((q0 :: g0).erase
                  ((q0 :: g0).getD (st.rs.headD 0 % (q0 :: g0).length) ""))) t' = some [] := by
                rw [groupSet_get_other st.gs t t' _ hne]
                exact h
              exact hg t' h2
            · intro hbf hsz t' ht' g hgg
              exfalso
              have hlt2 : groupsTotalSize (examFor count ts { st with sel := st.sel ++ [(q0 :: g0).getD (st.rs.headD 0 % (q0 :: g0).length) ""], gs := groupSet st.gs t ((q0 :: g0).erase ((q0 :: g0).getD (st.rs.headD 0 % (q0 :: g0).length) "")), rs := st.rs.tail }).gs < groupsTotalSize st.gs :=
                lt_of_le_of_lt hd hsizelt
              have hsz2 : groupsTotalSize (examFor count ts { st with sel := st.sel ++ [(q0 :: g0).getD (st.rs.headD 0 % (q0 :: g0).length) ""], gs := groupSet st.gs t ((q0 :: g0).erase ((q0 :: g0).getD (st.rs.headD 0 % (q0 :: g0).length) "")), rs := st.rs.tail }).gs = groupsTotalSize st.gs := hsz
              omega

theorem examLoop_spec (count : Nat) (fkeys : List String) (hfk : fkeys.Nodup) :
    ∀ (fuel : Nat) (st : ExamPass), ExamInv fkeys st → st.broke = false →
    ((examLoop count fkeys fuel st).Nodup ∧
      ∀ q ∈ examLoop count fkeys fuel st, q ∈ fkeys) ∧
    (st.sel.length < count → st.tl ≠ [] → groupsTotalSize st.gs < fuel →
      (examLoop count fkeys fuel st).length = min count fkeys.length) := by
  intro fuel
  induction fuel with
  | zero =>
    intro st hInv hbroke
    refine ⟨⟨hInv.1, hInv.2.1⟩, ?_⟩
    intro _ _ hsz
    exact absurd hsz (Nat.not_lt_zero _)
  | succ fuel ih =>
    intro st hInv hbroke
    by_cases hcond : st.sel.length < count ∧ st.tl ≠ []
    · simp only [examLoop]
      rw [if_pos hcond]
      obtain ⟨ha, hb, hc, hd, he, hf, hg, hh⟩ :=
        examFor_spec count fkeys st.tl st hInv hbroke hcond.1
      obtain ⟨ha1, ha2, ha3, ha4, ha5⟩ := ha
      by_cases hbrk : (examFor count st.tl st).broke = true
      · rw [if_pos hbrk]
        refine ⟨⟨ha1, ha2⟩, ?_⟩
        intro _ _ _
        have hlc := he hbrk
        have hle : (examFor count st.tl st).sel.length ≤ fkeys.length :=
          nodup_subset_length_le ha1 ha2
        omega
      · rw [if_neg hbrk]
        have hbf : (examFor count st.tl st).broke = false := by
          cases hx : (examFor count st.tl st).broke with
          | false => rfl
          | true => exact absurd hx hbrk
        have hlen' := hf hbf
        have hLle : (examFor count st.tl st).sel.length ≤ fkeys.length :=
          nodup_subset_length_le ha1 ha2
        by_cases hemp : allGroupsEmpty (examFor count st.tl st).gs = true
        · have hcond2 : (examFor count st.tl st).sel.length < count ∧
              allGroupsEmpty (examFor count st.tl st).gs = true := ⟨hlen', hemp⟩
          rw [if_pos hcond2]
          have hrlen : (fkeys.filter
              (fun q => decide (q ∉ (examFor count st.tl st).sel))).length =
              fkeys.length - (examFor count st.tl st).sel.length :=
            length_filter_not_mem fkeys _ hfk ha1 ha2
          have hrnd : (fkeys.filter
              (fun q => decide (q ∉ (examFor count st.tl st).sel))).Nodup :=
            hfk.filter _
          have hsperm : (pyShuffle (examFor count st.tl st).rs
              (fkeys.filter (fun q => decide (q ∉ (examFor count st.tl st).sel)))).Perm
              (fkeys.filter (fun q => decide (q ∉ (examFor count st.tl st).sel))) :=
            pyShuffle_perm _ _
          have hslen : (pySample (examFor count st.tl st).rs
              (min (count - (examFor count st.tl st).sel.length)
                (fkeys.filter (fun q => decide (q ∉ (examFor count st.tl st).sel))).length)
              (fkeys.filter (fun q => decide (q ∉ (examFor count st.tl st).sel)))).length =
              min (count - (examFor count st.tl st).sel.length)
                (fkeys.filter (fun q => decide (q ∉ (examFor count st.tl st).sel))).length := by
            unfold pySample
            rw [List.length_take, hsperm.length_eq]
            omega
          have hsnd : (pySample (examFor count st.tl st).rs
              (min (count - (examFor count st.tl st).sel.length)
                (fkeys.filter (fun q => decide (q ∉ (examFor count st.tl st).sel))).length)
              (fkeys.filter (fun q => decide (q ∉ (examFor count st.tl st).sel)))).Nodup := by
            unfold pySample
            exact (List.take_sublist _ _).nodup (hsperm.symm.nodup hrnd)
          have hssub : ∀ q ∈ pySample (examFor count st.tl st).rs
              (min (count - (examFor count st.tl st).sel.length)
                (fkeys.filter (fun q => decide (q ∉ (examFor count st.tl st).sel))).length)
              (fkeys.filter (fun q => decide (q ∉ (examFor count st.tl st).sel))),
              q ∈ fkeys.filter (fun q => decide (q ∉ (examFor count st.tl st).sel)) := by
            unfold pySample
            intro q hq
            exact hsperm.subset ((List.take_sublist _ _).subset hq)
          refine ⟨⟨?_, ?_⟩, ?_⟩
          · refine ha1.append hsnd ?_
            intro x hx1 hx2
            exact (of_decide_eq_true (List.mem_filter.mp (hssub x hx2)).2) hx1
          · intro q hq
            rcases List.mem_append.mp hq with hm | hm
            · exact ha2 q hm
            · exact (List.mem_filter.mp (hssub q hm)).1
          · intro _ _ _
            rw [List.length_append, hslen, hrlen]
            omega
        · have hcond2 : ¬ ((examFor count st.tl st).sel.length < count ∧
              allGroupsEmpty (examFor count st.tl st).gs = true) := fun hc => hemp hc.2
          rw [if_neg hcond2]
          have hex : ¬ ∀ p ∈ (examFor count st.tl st).gs, p.2 = [] :=
            fun hall => hemp ((allGroupsEmpty_iff _).mpr hall)
          push_neg at hex
          obtain ⟨p, hp, hpne⟩ := hex
          have hsizelt : groupsTotalSize (examFor count st.tl st).gs <
              groupsTotalSize st.gs := by
            by_contra hge
            have heq : groupsTotalSize (examFor count st.tl st).gs =
                groupsTotalSize st.gs := by omega
            have hptl : p.1 ∈ (examFor count st.tl st).tl := by
              by_contra hnot
              exact hpne (ha5 p hp hnot)
            have hptl2 : p.1 ∈ st.tl := hb p.1 hptl
            have hgp : groupGet (examFor count st.tl st).gs p.1 = some p.2 :=
              groupGet_of_mem_nodup _ _ _ ha4 hp
            exact hpne (hh hbf heq p.1 hptl2 p.2 hgp)
          have htl' : (examFor count st.tl st).tl ≠ [] := by
            intro htl0
            apply hemp
            rw [allGroupsEmpty_iff]
            intro p2 hp2
            apply ha5 p2 hp2
            rw [htl0]
            exact List.not_mem_nil _
          obtain ⟨ihp1, ihp2⟩ := ih (examFor count st.tl st)
            ⟨ha1, ha2, ha3, ha4, ha5⟩ hbf
          refine ⟨ihp1, ?_⟩
          intro _ _ hsz
          exact ihp2 hlen' htl' (by omega)
    · simp only [examLoop]
      rw [if_neg hcond]
      refine ⟨⟨hInv.1, hInv.2.1⟩, ?_⟩
      intro h1 h2 _
      exact absurd ⟨h1, h2⟩ hcond

theorem addToGroup_keys_nodup (gs : List (String × List String)) (t qid : String)
    (h : (gs.map (fun p => p.1)).Nodup) :
    ((addToGroup gs t qid).map (fun p => p.1)).Nodup := by
  cases hg : groupGet gs t with
  | some g =>
    simp only [addToGroup, hg]
    rw [groupSet_keys]
    exact h
  | none =>
    simp only [addToGroup, hg]
    rw [List.map_append]
    refine h.append (List.nodup_singleton _) ?_
    intro a ha1 ha2
    rw [List.map_singleton, List.mem_singleton] at ha2
    rw [ha2] at ha1
    exact (groupGet_none_iff gs t).mp hg ha1

theorem addToGroup_members (P : String → Prop) (gs : List (String × List String))
    (t qid : String) (h : ∀ p ∈ gs, ∀ x ∈ p.2, P x) (hq : P qid) :
    ∀ p ∈ addToGroup gs t qid, ∀ x ∈ p.2, P x := by
  intro p hp x hx
  cases hg : groupGet gs t with
  | some g =>
    simp only [addToGroup, hg] at hp
    unfold groupSet at hp
    obtain ⟨p0, hp0, hpe⟩ := List.mem_map.mp hp
    by_cases hbq : (p0.1 == t) = true
    · rw [if_pos hbq] at hpe
      rw [← hpe] at hx
      rcases List.mem_append.mp hx with hm | hm
      · exact h (t, g) (groupGet_some_mem gs t g hg) x hm
      · rw [List.mem_singleton] at hm
        rw [hm]
        exact hq
    · rw [if_neg hbq] at hpe
      rw [← hpe] at hx
      exact h p0 hp0 x hx
  | none =>
    simp only [addToGroup, hg] at hp
    rcases List.mem_append.mp hp with hm | hm
    · exact h p hm x hx
    · rw [List.mem_singleton] at hm
      rw [hm] at hx
      rw [List.mem_singleton] at hx
      rw [hx]
      exact hq

theorem addToGroup_le (gs : List (String × List String)) (t qid : String) :
    gs.length ≤ (addToGroup gs t qid).length := by
  cases hg : groupGet gs t with
  | some g =>
    simp only [addToGroup, hg]
    unfold groupSet
    rw [List.length_map]
  | none =>
    simp only [addToGroup, hg]
    rw [List.length_append, List.length_singleton]
    omega

theorem addToGroup_pos (gs : List (String × List String)) (t qid : String) :
    1 ≤ (addToGroup gs t qid).length := by
  cases hg : groupGet gs t with
  | some g =>
    simp only [addToGroup, hg]
    unfold groupSet
    rw [List.length_map]
    have hm := groupGet_some_mem gs t g hg
    have := List.length_pos.mpr (List.ne_nil_of_mem hm)
    omega
  | none =>
    simp only [addToGroup, hg]
    rw [List.length_append, List.length_singleton]
    omega

theorem foldl_addToGroup_le (qid : String) :
    ∀ (ts : List String) (gs : List (String × List String)),
    gs.length ≤ (ts.foldl (fun gs t => addToGroup gs t qid) gs).length := by
  intro ts
  induction ts with
  | nil => intro gs; exact le_refl _
  | cons t ts ih =>
    intro gs
    exact le_trans (addToGroup_le gs t qid) (ih (addToGroup gs t qid))

theorem foldl_addToGroup_pos (qid : String) (ts : List String)
    (gs : List (String × List String)) (h : ts ≠ []) :
    1 ≤ (ts.foldl (fun gs t => addToGroup gs t qid) gs).length := by
  cases ts with
  | nil => exact absurd rfl h
  | cons t ts =>
    exact le_trans (addToGroup_pos gs t qid) (foldl_addToGroup_le qid ts (addToGroup gs t qid))

theorem foldl_addToGroup_keys_nodup (qid : String) :
    ∀ (ts : List String) (gs : List (String × List String)),
    (gs.map (fun p => p.1)).Nodup →
    (((ts.foldl (fun gs t => addToGroup gs t qid) gs).map (fun p => p.1)).Nodup) := by
  intro ts
  induction ts with
  | nil => intro gs h; exact h
  | cons t ts ih =>
    intro gs h
    exact ih (addToGroup gs t qid) (addToGroup_keys_nodup gs t qid h)

theorem foldl_addToGroup_members (P : String → Prop) (qid : String) (hq : P qid) :
    ∀ (ts : List String) (gs : List (String × List String)),
    (∀ p ∈ gs, ∀ x ∈ p.2, P x) →
    ∀ p ∈ ts.foldl (fun gs t => addToGroup gs t qid) gs, ∀ x ∈ p.2, P x := by
  intro ts
  induction ts with
  | nil => intro gs h; exact h
  | cons t ts ih =>
    intro gs h
    exact ih (addToGroup gs t qid) (addToGroup_members P gs t qid h hq)

theorem buildFold_keys_nodup :
    ∀ (l : List (String × Question)) (gs : List (String × List String)),
    (gs.map (fun p => p.1)).Nodup →
    (((l.foldl (fun gs p => p.2.topics.foldl (fun gs t => addToGroup gs t p.1) gs) gs).map
      (fun p => p.1)).Nodup) := by
  intro l
  induction l with
  | nil => intro gs h; exact h
  | cons p l ih =>
    intro gs h
    exact ih _ (foldl_addToGroup_keys_nodup p.1 p.2.topics gs h)

theorem buildFold_members (P : String → Prop) :
    ∀ (l : List (String × Question)) (gs : List (String × List String)),
    (∀ p ∈ l, P p.1) → (∀ p ∈ gs, ∀ x ∈ p.2, P x) →
    ∀ p ∈ l.foldl (fun gs p => p.2.topics.foldl (fun gs t => addToGroup gs t p.1) gs) gs,
      ∀ x ∈ p.2, P x := by
  intro l
  induction l with
  | nil => intro gs _ h; exact h
  | cons p l ih =>
    intro gs hl h
    refine ih _ (fun q hq => hl q (List.mem_cons_of_mem p hq)) ?_
    exact foldl_addToGroup_members P p.1 (hl p (List.mem_cons_self p l)) p.2.topics gs h

theorem buildFold_pos :
    ∀ (l : List (String × Question)) (gs : List (String × List String)),
    (1 ≤ gs.length ∨ ∃ p ∈ l, p.2.topics ≠ []) →
    1 ≤ (l.foldl (fun gs p => p.2.topics.foldl (fun gs t => addToGroup gs t p.1) gs)
      gs).length := by
  intro l
  induction l with
  | nil =>
    intro gs h
    rcases h with h1 | ⟨q, hq, _⟩
    · exact h1
    · exact absurd hq (List.not_mem_nil q)
  | cons p l ih =>
    intro gs h
    rcases h with h1 | ⟨q, hq, hqt⟩
    · exact ih _ (Or.inl (le_trans h1 (foldl_addToGroup_le p.1 p.2.topics gs)))
    · rcases List.mem_cons.mp hq with he | hm
      · refine ih _ (Or.inl ?_)
        rw [he] at hqt
        exact foldl_addToGroup_pos p.1 p.2.topics gs hqt
      · exact ih _ (Or.inr ⟨q, hm, hqt⟩)

theorem buildTopicGroups_keys_nodup (filtered : List (String × Question)) :
    ((buildTopicGroups filtered).map (fun p => p.1)).Nodup :=
  buildFold_keys_nodup filtered [] (by simp)

theorem buildTopicGroups_members (filtered : List (String × Question)) :
    ∀ p ∈ buildTopicGroups filtered, ∀ x ∈ p.2, x ∈ filtered.map (fun p => p.1) :=
  buildFold_members _ filtered [] (fun p hp => List.mem_map.mpr ⟨p, hp, rfl⟩)
    (fun p hp => absurd hp (List.not_mem_nil p))

theorem buildTopicGroups_ne_nil (filtered : List (String × Question))
    (h : ∃ p ∈ filtered, p.2.topics ≠ []) : buildTopicGroups filtered ≠ [] := by
  have h1 := buildFold_pos filtered [] (Or.inr h)
  intro h0
  have h2 : (1 : Nat) ≤ (buildTopicGroups filtered).length := h1
  rw [h0] at h2
  simp at h2

theorem examLoop_exit (count : Nat) (fk : List String) (fuel : Nat) (st : ExamPass)
    (h : ¬ (st.sel.length < count ∧ st.tl ≠ [])) :
    examLoop count fk (fuel + 1) st = st.sel := by
  simp only [examLoop]
  rw [if_neg h]

/-- **C3.** For every filtered pool of size P and requested count C, the
normal, weak-spot and spaced-repetition policies return exactly min(P, C)
duplicate-free identifiers drawn from the pool.  The exam policy always
returns a duplicate-free list of pool identifiers, and it has length
min(P, C) provided the pool is empty or at least one pooled question
carries a topic tag; a nonempty pool in which no question has any topic
tag instead yields the empty list (the counterexample below), so the
original unconditional length claim fails for the exam policy.  The
duplicate-free keys of the pool, the progress table and the catalog are
the dict/primary-key hypotheses. -/
theorem C3_selection_policies (rs rs1 rs2 rsE : List Nat) (now : ℚ)
    (dm : DataManagerState) (filtered : List (String × Question)) (count : Nat)
    (hnd : (filtered.map (fun p => p.1)).Nodup)
    (hpr : (dm.question_progress.map (fun r => r.question_id)).Nodup)
    (hcat : (dm.questions.map (fun p => p.1)).Nodup) :
    ((selectNormalQuestions rs filtered count).length = min count filtered.length ∧
      (selectNormalQuestions rs filtered count).Nodup ∧
      ∀ q ∈ selectNormalQuestions rs filtered count, q ∈ filtered.map (fun p => p.1)) ∧
    ((selectWeakSpotQuestions dm.question_progress filtered count).length =
        min count filtered.length ∧
      (selectWeakSpotQuestions dm.question_progress filtered count).Nodup ∧
      ∀ q ∈ selectWeakSpotQuestions dm.question_progress filtered count,
        q ∈ filtered.map (fun p => p.1)) ∧
    ((selectSpacedRepetitionQuestions rs1 rs2 now dm filtered count).length =
        min count filtered.length ∧
      (selectSpacedRepetitionQuestions rs1 rs2 now dm filtered count).Nodup ∧
      ∀ q ∈ selectSpacedRepetitionQuestions rs1 rs2 now dm filtered count,
        q ∈ filtered.map (fun p => p.1)) ∧
    ((selectExamQuestions rsE filtered count).Nodup ∧
      (∀ q ∈ selectExamQuestions rsE filtered count, q ∈ filtered.map (fun p => p.1)) ∧
      ((filtered = [] ∨ buildTopicGroups filtered ≠ []) →
        (selectExamQuestions rsE filtered count).length = min count filtered.length)) := by
  refine ⟨selectNormal_props rs filtered count hnd,
    selectWeakSpot_props dm.question_progress filtered count hnd,
    selectSpacedRep_props rs1 rs2 now dm filtered count hnd hpr hcat, ?_⟩
  have hkeysnd := buildTopicGroups_keys_nodup filtered
  have hmem := buildTopicGroups_members filtered
  have hInv0 : ExamInv (filtered.map (fun p => p.1))
      { sel := [], tl := (buildTopicGroups filtered).map (fun p => p.1),
        gs := buildTopicGroups filtered, rs := rsE, broke := false } := by
    refine ⟨List.nodup_nil, ?_, hmem, hkeysnd, ?_⟩
    · intro q hq
      exact absurd hq (List.not_mem_nil q)
    · intro p hp hnp
      exact absurd (List.mem_map.mpr ⟨p, hp, rfl⟩) hnp
  obtain ⟨⟨hnod, hsub⟩, hlen⟩ := examLoop_spec count (filtered.map (fun p => p.1)) hnd
    (groupsTotalSize (buildTopicGroups filtered) + 1)
    { sel := [], tl := (buildTopicGroups filtered).map (fun p => p.1),
      gs := buildTopicGroups filtered, rs := rsE, broke := false } hInv0 rfl
  refine ⟨hnod, fun q hq => hsub q hq, ?_⟩
  intro hcase
  rcases hcase with hfe | hgne
  · have hle : (selectExamQuestions rsE filtered count).length ≤
        (filtered.map (fun p => p.1)).length := nodup_subset_length_le hnod hsub
    have hfl : filtered.length = 0 := by
      rw [hfe]
      rfl
    have hml : (filtered.map (fun p => p.1)).length = filtered.length := List.length_map _ _
    omega
  · rcases Nat.eq_zero_or_pos count with hc0 | hcpos
    · subst hc0
      have h0 : selectExamQuestions rsE filtered 0 = [] :=
        examLoop_exit 0 (filtered.map (fun p => p.1))
          (groupsTotalSize (buildTopicGroups filtered))
          { sel := [], tl := (buildTopicGroups filtered).map (fun p => p.1),
            gs := buildTopicGroups filtered, rs := rsE, broke := false }
          (fun hcc => absurd hcc.1 (Nat.not_lt_zero _))
      rw [h0]
      simp
    · have htl : ((buildTopicGroups filtered).map (fun p => p.1)) ≠ [] := by
        intro hh
        exact hgne (List.map_eq_nil_iff.mp hh)
      have hfin := hlen hcpos htl (Nat.lt_succ_self _)
      have hml : (filtered.map (fun p => p.1)).length = filtered.length := List.length_map _ _
      have hfin2 : (selectExamQuestions rsE filtered count).length =
          min count (filtered.map (fun p => p.1)).length := hfin
      rw [hml] at hfin2
      exact hfin2

/-- The original C3 claim fails for exam mode: a nonempty pool whose only
question carries no topic tag makes _select_exam_questions return the
empty list, not a list of length min(P, C) = 1. -/
theorem C3_counterexample :
    selectExamQuestions [0] [("q1", qMC)] 1 = [] ∧ [("q1", qMC)].length = 1 := by
  constructor
  · decide
  · decide

theorem C3_selection_policies_witness :
    (selectExamQuestions [1] poolC3 2).length = min 2 poolC3.length :=
  (C3_selection_policies [0] [0] [0] [1] 0 dmW poolC3 2 (by decide) (by decide)
    (by decide)).2.2.2.2.2 (Or.inr (by decide))
